import Mathlib

/-!
Verification development for the portfolio-assistant backend's retrieval
engine and question classifier (`backend/main.py`, `backend/rag_system.py`).

The Python code is shallowly embedded: dictionaries with string keys become
insertion-ordered association lists, Python floats are modelled as exact
rationals (every arithmetic comparison exercised by the concrete corpora in
this file is far from the float rounding error, and the universal theorems
do not depend on rounding), `**0.5` is modelled by an exact rational square
root (exact on every perfect-square input reached here), exceptions become
`Option` (a `none` models an uncaught exception inside a `try` block), and
documents are modelled with the four fields (`category`, `title`,
`content`, `keywords`) that `load_knowledge_from_file` validates.
Python string operations are modelled for ASCII text, which is all the
keyword tables and corpora contain.
-/

set_option allowUnsafeReducibility true in
attribute [semireducible] Rat.mul Rat.inv Rat.add Rat.sub

/-! ## Python string primitives -/

/-- Python `str.lower()` (ASCII). -/
def py_lower (s : String) : String := String.mk (s.data.map Char.toLower)

/-- A regex word character (`\w`): letter, digit or underscore (ASCII). -/
def isWordChar (c : Char) : Bool := c.isAlphanum || c = '_'

/-- `needle` is a prefix of `hay` (on character lists). -/
def startsWithChars : List Char → List Char → Bool
  | [], _ => true
  | _ :: _, [] => false
  | a :: as, b :: bs => a = b && startsWithChars as bs

/-- Python `needle in hay` substring test, on character lists. -/
def substrChars (needle : List Char) : List Char → Bool
  | [] => needle.isEmpty
  | c :: t => startsWithChars needle (c :: t) || substrChars needle t

/-- Python `needle in hay` substring test on strings. -/
def py_in (needle hay : String) : Bool := substrChars needle.data hay.data

/-- Whether a character may sit directly outside a `\b` boundary of a match:
`none` stands for the edge of the string. -/
def boundaryOk : Option Char → Bool
  | none => true
  | some c => !isWordChar c

/-- Search loop of `re.search(r'\b' + re.escape(pat) + r'\b', hay)`, carrying
the character just before the current position.  The patterns fed to it all
start and end with a word character, so the two `\b` anchors amount to the
neighbour characters (if any) not being word characters. -/
def wbSearchAux (pat : List Char) (prev : Option Char) : List Char → Bool
  | [] => startsWithChars pat [] && boundaryOk prev
  | c :: t =>
    (startsWithChars pat (c :: t) && boundaryOk prev &&
      boundaryOk ((c :: t).drop pat.length).head?) ||
    wbSearchAux pat (some c) t

/-- `re.search(r'\b' + re.escape(pat) + r'\b', hay)` as used throughout
`main.py` (patterns begin and end with word characters). -/
def wb_search (pat hay : String) : Bool := wbSearchAux pat.data none hay.data

/-- Split a character list on whitespace, dropping empty pieces: the
behaviour of Python's `str.split()` with no argument. -/
def splitWsChars (l : List Char) : List (List Char) :=
  let rec go : List Char → List Char → List (List Char)
    | acc, [] => if acc.isEmpty then [] else [acc.reverse]
    | acc, c :: t =>
      if c.isWhitespace then
        if acc.isEmpty then go [] t else acc.reverse :: go [] t
      else go (c :: acc) t
  go [] l

/-- Python `s.split()` (no separator argument). -/
def py_split_ws (s : String) : List String := (splitWsChars s.data).map String.mk

/-- Replace every whitespace run by a single space
(`re.sub(r'\s+', ' ', s)`); `prevWs` records whether the previous character
was part of a whitespace run. -/
def collapseWsAux (prevWs : Bool) : List Char → List Char
  | [] => []
  | c :: t =>
    if c.isWhitespace then
      if prevWs then collapseWsAux true t else ' ' :: collapseWsAux true t
    else c :: collapseWsAux false t

/-- Replace every whitespace run by a single space. -/
def collapseWs (l : List Char) : List Char := collapseWsAux false l

/-- Python `str.strip()` on character lists. -/
def stripChars (l : List Char) : List Char :=
  ((l.dropWhile Char.isWhitespace).reverse.dropWhile Char.isWhitespace).reverse

/-- `preprocess_question` (main.py): lowercase, replace `[^\w\s]` by spaces,
collapse whitespace runs, strip. -/
def preprocess_question (question : String) : String :=
  let l := question.data.map Char.toLower
  let l := l.map fun c => if isWordChar c || c.isWhitespace then c else ' '
  String.mk (stripChars (collapseWs l))

/-- `re.findall(r'\b\w+\b', s.lower())`: the maximal runs of word characters
of the lowercased text. -/
def wordRunsChars (l : List Char) : List (List Char) :=
  let rec go : List Char → List Char → List (List Char)
    | acc, [] => if acc.isEmpty then [] else [acc.reverse]
    | acc, c :: t =>
      if isWordChar c then go (c :: acc) t
      else if acc.isEmpty then go [] t else acc.reverse :: go [] t
  go [] l

/-- `re.findall(r'\b\w+\b', s.lower())` on strings. -/
def py_word_runs (s : String) : List String :=
  (wordRunsChars (s.data.map Char.toLower)).map String.mk

/-- Keep the first occurrence of each element (Python `dict`/first-touch
insertion order); `seen` accumulates elements already emitted. -/
def firstDedupAux (seen : List String) : List String → List String
  | [] => []
  | x :: t =>
    if x ∈ seen then firstDedupAux seen t else x :: firstDedupAux (x :: seen) t

/-- Keep the first occurrence of each element. -/
def firstDedup (l : List String) : List String := firstDedupAux [] l

/-- Python `s[:n]` on strings (character count). -/
def py_take (s : String) (n : Nat) : String := String.mk (s.data.take n)

/-- Python `s.endswith(suffix)`. -/
def py_endswith (s suffix : String) : Bool :=
  startsWithChars suffix.data.reverse s.data.reverse

/-- Python `s.replace(pat, rep)` for a non-empty pattern: every
non-overlapping occurrence, left to right.  The fuel (the input length)
makes the recursion structural. -/
def replaceAllAux (pat rep : List Char) : Nat → List Char → List Char
  | _, [] => []
  | 0, l => l
  | fuel + 1, c :: t =>
    if !pat.isEmpty && startsWithChars pat (c :: t) then
      rep ++ replaceAllAux pat rep fuel (t.drop (pat.length - 1))
    else c :: replaceAllAux pat rep fuel t

/-- Python `s.replace(pat, rep)` (non-empty `pat`). -/
def py_replace (s pat rep : String) : String :=
  String.mk (replaceAllAux pat.data rep.data s.data.length s.data)

/-! ## `is_gibberish` (main.py lines 398-447) -/

def gibberishTechTerms : List String :=
  ["python", "react", "java", "next.js", "data science"]

def gibberishKeyTerms : List String :=
  ["ceritakan", "bagaimana", "gimana", "tentang"]

def gibberishValidTerms : List String :=
  ["python", "react", "java", "next", "hobi", "makanan", "lagu", "proyek"]

def consonantChars : List Char :=
  ['b','c','d','f','g','h','j','k','l','m','n','p','q','r','s','t','v','w','x','y','z']

def vowelChars : List Char := ['a','e','i','o','u']

/-- The lowercase ASCII alphabet (used to state the natural-language-input
hypotheses of the gibberish claims). -/
def lowercaseLetters : List Char :=
  ['a','b','c','d','e','f','g','h','i','j','k','l','m','n','o','p','q','r','s','t',
   'u','v','w','x','y','z']

/-- The running maximum of consecutive-consonant run lengths (`cur` is the
current run, `best` the maximum seen so far). -/
def maxConsRunAux (cur best : Nat) : List Char → Nat
  | [] => best
  | c :: t =>
    if c ∈ consonantChars then maxConsRunAux (cur + 1) (max best (cur + 1)) t
    else maxConsRunAux 0 best t

/-- `max_consecutive_consonants` as computed inside `is_gibberish`. -/
def max_consecutive_consonants (s : String) : Nat := maxConsRunAux 0 0 s.data

/-- Count of alphabetic characters (the total of the `char_counts` table). -/
def alphaCount (s : String) : Nat := s.data.countP Char.isAlpha

/-- Count of vowels among the alphabetic characters. -/
def vowelCount (s : String) : Nat := s.data.countP (· ∈ vowelChars)

/-- `is_gibberish` (main.py).  The final branch models the float comparison
`vowel_count / total_chars < 0.1` exactly over ℚ. -/
def is_gibberish (text0 : String) : Bool :=
  if text0.length < 2 then false
  else
    let text := py_lower text0
    if gibberishTechTerms.any (fun t => py_in t text) then false
    else if gibberishKeyTerms.any (fun t => py_in t text) then false
    else if (py_split_ws text).length < 2 then
      !(gibberishValidTerms.any (fun t => py_in t text))
    else
      let run := max_consecutive_consonants text
      let total := alphaCount text
      let vow := vowelCount text
      if run ≥ 4 then true
      else if total > 0 && ((vow : ℚ) / (total : ℚ) < 1/10) then true
      else false

/-! ## Conversation context (main.py `ConversationContext`) -/

/-- The fields of `ConversationContext` consulted by categorization and by
`should_use_context_in_prompt`.  A `last_category` of `none` models Python
`None`; the empty string is also falsy in the Python checks and is treated
so in the embeddings below.  `topic_transitions` stores
`(from_category, to_category, timestamp)` triples. -/
structure ConversationContext where
  last_category : Option String
  questions_history : List String
  topic_transitions : List (String × String × ℚ)
deriving DecidableEq

/-- The `related_categories` table of `is_context_relevant`, as a lookup. -/
def relatedCategoriesOf (c : String) : Option (List String) :=
  if c = "keahlian" then some ["teknologi", "proyek", "tools"]
  else if c = "teknologi" then some ["keahlian", "proyek"]
  else if c = "proyek" then some ["keahlian", "teknologi"]
  else if c = "makanan_favorit" then some []
  else if c = "lagu_favorit" then some []
  else if c = "hobi" then some []
  else none

/-- `ConversationContext.is_context_relevant` (main.py lines 106-136). -/
def is_context_relevant (ctx : ConversationContext) (new_category : String) : Bool :=
  match ctx.last_category with
  | none => false
  | some lc =>
    if lc = "" then false
    else if new_category = lc then true
    else if ((relatedCategoriesOf lc).getD []).contains new_category then true
    else if py_endswith new_category "_followup" then
      py_replace new_category "_followup" "" = lc
    else false

/-- `ConversationContext.should_use_context_in_prompt` (main.py lines
138-151); `now` stands for the `time.time()` call. -/
def should_use_context_in_prompt (ctx : ConversationContext) (now : ℚ)
    (new_category : String) : Bool :=
  if !is_context_relevant ctx new_category then false
  else if ctx.topic_transitions.length > 3 then false
  else
    match ctx.topic_transitions.getLast? with
    | some t => if now - t.2.2 > 300 then false else true
    | none => true

/-! ## `detect_question_intent` (main.py lines 449-508)

Each regex pattern is an anchor-free alternation of literals, so
`re.search` is equivalent to a substring test against the expanded
literal list. -/

def challengingLits : List String :=
  ["kenapa saya harus", "kenapa aku harus",
   "apa membuat kamu", "apa membuat anda", "apa yang membuat kamu", "apa yang membuat anda",
   "emang cukup", "emang bisa", "memang cukup", "memang bisa", "masa cukup", "masa bisa",
   "yakin bisa", "yakin mampu", "serius bisa", "serius mampu",
   "hanya", "cuma", "saja", "doang",
   "gak cukup", "gak bisa", "tidak cukup", "tidak bisa", "nggak cukup", "nggak bisa"]

def reflectiveLits : List String :=
  ["gimana menurutmu", "gimana pendapatmu", "bagaimana menurutmu", "bagaimana pendapatmu",
   "kamu rasa", "kamu pikir", "kamu anggap",
   "menurut kamu", "menurut anda", "apa pendapat", "apa opini"]

def comparisonLits : List String :=
  ["dibanding", "dibandingkan", "lebih baik", "lebih bagus", "versus", "vs", "mana yang"]

def followupLits : List String :=
  ["terus gimana", "terus bagaimana", "lalu gimana", "lalu bagaimana",
   "kemudian gimana", "kemudian bagaimana",
   "selain itu", "selain dari", "kecuali itu", "kecuali dari",
   "balik ke", "kembali ke",
   "emang cukup", "emang bisa", "memang cukup", "memang bisa",
   "yakin gak", "yakin tidak", "serius gak", "serius tidak",
   "hanya dengan", "hanya pakai", "cuma dengan", "cuma pakai"]

/-- `detect_question_intent` (main.py). -/
def detect_question_intent (question : String) (octx : Option ConversationContext) : String :=
  let ql := py_lower question
  if challengingLits.any (fun p => py_in p ql) then "challenging"
  else if reflectiveLits.any (fun p => py_in p ql) then "reflective"
  else if comparisonLits.any (fun p => py_in p ql) then "comparison"
  else
    match octx with
    | some ctx =>
      if is_context_relevant ctx "followup" && followupLits.any (fun p => py_in p ql) then
        "followup"
      else "neutral"
    | none => "neutral"

/-! ## `categorize_question` keyword tables (main.py lines 548-700) -/

def personal_checks : List (List String × String) :=
  [(["pacar", "jodoh", "pacaran", "pasangan", "gebetan", "wanita", "nikah", "menikah",
     "single", "lajang", "status hubungan"], "personal_relationship"),
   (["gaji", "salary", "penghasilan", "bayaran", "uang", "kekayaan", "sebulan",
     "pendapatan"], "personal_financial"),
   (["alamat rumah", "tinggal dimana", "alamat lengkap", "nomor", "kontak", "pribadi",
     "telepon", "hp"], "personal_contact"),
   (["umur", "usia", "tanggal lahir", "kapan lahir", "kelahiran", "berapa tahun"],
    "personal_age"),
   (["agama", "kepercayaan", "tuhan", "beribadah", "keyakinan", "ibadah"],
    "personal_religion")]

/-- The first personal-sensitive category whose keyword list has a
word-boundary match in the (preprocessed) question: main.py lines 633-644. -/
def personal_category (question : String) : Option String :=
  (personal_checks.find? fun p => p.1.any fun kw => wb_search kw question).map (·.2)

def category_keywords : List (String × List String) :=
  [("lagu_favorit",
    ["lagu", "musik", "dengerin", "dengarkan", "nyanyi", "penyanyi", "band", "playlist",
     "genre", "album", "jadul", "konser", "artist", "artis", "musisi", "spotify",
     "instrumental", "mendengarkan", "lagu favorit", "lagu kesukaan", "musik favorit",
     "enak didengerin", "air supply", "glenn fredly", "without you", "sekali ini saja",
     "celine dion", "oldies", "lo-fi", "soundtrack", "pop", "kapan pertama",
     "pertama kali dengar", "kenapa suka", "lirik favorit", "rekomendasi lagu"]),
   ("makanan_favorit",
    ["makanan", "makan", "masak", "sarapan", "makan siang", "makan malam", "kuliner",
     "masakan", "jajan", "ngemil", "makanan favorit", "masakan favorit", "kuliner favorit",
     "street food", "makanan jalanan", "enak", "lezat", "gurih", "manis", "pedas", "snack",
     "hidangan", "menu", "lapar", "kenyang", "nyemil", "nongkrong", "martabak", "sate",
     "gorengan", "ketoprak", "batagor", "nasi padang", "soto", "bakso", "keripik",
     "camilan"]),
   ("hobi",
    ["hobi", "suka", "waktu luang", "kegiatan", "aktivitas", "senang",
     "menghabiskan waktu", "passion", "interest", "mengisi waktu", "kesenangan",
     "leisure", "weekend", "libur", "membaca", "buku", "novel", "traveling",
     "jalan-jalan", "wisata", "destinasi", "omniscient reader", "fantasi", "sci-fi"]),
   ("keahlian",
    ["keahlian", "skill", "kemampuan", "ahli", "bisa apa", "bisa apa saja", "jago",
     "expert", "menguasai", "expertise", "kompetensi", "kapabilitas", "spesialisasi",
     "teknis", "technical", "hard skill", "python", "javascript", "react", "next.js",
     "data science", "programming", "coding"]),
   ("proyek",
    ["proyek", "project", "karya", "portfolio", "aplikasi", "buat apa", "telah dibuat",
     "terbaik", "unggulan", "kerjaan", "hasil", "pencapaian", "showcase", "demo",
     "showcase", "alchemy", "rush hour", "puzzle", "algoritma", "finance tracker"]),
   ("rekrutmen",
    ["rekrut", "hire", "merekrut", "tim", "team", "kerja sama", "bergabung",
     "harus merekrut", "kenapa harus", "mengapa memilih", "apa yang membuat"])]

def other_categories : List (String × List String) :=
  [("mata_kuliah", ["pelajaran favorit", "mata kuliah favorit", "mata pelajaran",
     "pelajaran", "kuliah favorit"]),
   ("lokasi", ["lokasi", "tinggal", "domisili", "alamat", "kota", "daerah", "rumah"]),
   ("prestasi", ["prestasi", "pencapaian", "award", "penghargaan", "juara"]),
   ("lomba", ["lomba", "kompetisi", "contest", "hackathon", "datathon"]),
   ("data_science", ["data", "data science", "analisis data", "big data", "statistik",
     "machine learning", "ml"]),
   ("tools", ["tool", "alat", "software", "library", "framework", "favorit",
     "suka pakai"]),
   ("karakter", ["karakter", "kepribadian", "sifat", "tipe", "mbti", "orangnya",
     "pemalu", "extrovert", "introvert"]),
   ("portofolio_tech", ["portofolio ini", "website ini", "web ini", "dibuat pakai",
     "teknologi"]),
   ("rencana", ["rencana", "masa depan", "target", "tujuan", "cita", "5 tahun"]),
   ("pekerjaan", ["pekerjaan", "kerja", "profesi", "karir", "jabatan"]),
   ("pengalaman", ["pengalaman", "experience", "lama kerja"]),
   ("manajemen_waktu", ["waktu", "manage", "manajemen", "atur waktu", "produktif"]),
   ("manajemen_stres", ["stres", "stress", "tekanan", "pressure", "beban", "handle"]),
   ("cerita_kuliah", ["cerita", "momen", "pengalaman kuliah", "culture shock",
     "berkesan"]),
   ("organisasi", ["organisasi", "berorganisasi", "komunitas", "kepanitiaan"]),
   ("belajar_mandiri", ["belajar mandiri", "autodidak", "self-taught", "tutorial"]),
   ("belajar_kegagalan", ["kegagalan", "gagal", "failure", "kesalahan", "mistake"]),
   ("kerja_tim", ["tim", "team", "kerja tim", "kolaborasi", "konflik"]),
   ("kebiasaan_ngoding", ["ngoding", "coding", "kode", "malam", "produktif"]),
   ("moto_hidup", ["moto", "motto", "quotes", "quote", "kutipan", "kata-kata"])]

def education_keywords : List String :=
  ["pendidikan", "sekolah", "kuliah", "belajar", "kampus", "universitas", "itb",
   "masuk itb", "masuk kuliah", "jurusan"]

/-- The `recruitment_patterns` of `categorize_question` (lines 613-620),
expanded from regex alternations into their literal forms. -/
def recruitmentLits : List String :=
  ["kenapa saya harus merekrut", "kenapa saya harus hire",
   "kenapa aku harus merekrut", "kenapa aku harus hire",
   "apa yang membuat kamu cocok", "apa yang membuat kamu layak",
   "apa yang membuat anda cocok", "apa yang membuat anda layak",
   "apa membuat kamu cocok", "apa membuat kamu layak",
   "apa membuat anda cocok", "apa membuat anda layak",
   "mengapa memilih kamu", "mengapa memilih anda",
   "mengapa pilih kamu", "mengapa pilih anda",
   "keunggulan kamu", "keunggulan anda", "kelebihan kamu", "kelebihan anda",
   "tim data", "tim ml", "tim machine learning",
   "hire kamu", "hire anda", "rekrut kamu", "rekrut anda"]

def tech_keywords : List String :=
  ["python", "react", "java", "next.js", "data science"]

/-! ## `categorize_question` (main.py lines 594-718) -/

/-- One question word scores a category when it word-boundary-matches inside
some keyword or some keyword word-boundary-matches inside it
(main.py lines 653-659). -/
def wordMatchesKeywords (keywords : List String) (w : String) : Bool :=
  keywords.any fun kw => wb_search w kw || wb_search kw w

/-- The per-category score of lines 649-667: exact word matches plus two
points per multi-word keyword phrase found in the question. -/
def categoryMatchCount (question : String) (question_words : List String)
    (keywords : List String) : Nat :=
  question_words.countP (wordMatchesKeywords keywords) +
    2 * keywords.countP (fun kw => kw.data.contains ' ' && wb_search kw question)

/-- The `word_category_counts` dict after the `category_keywords` loop:
all six categories are inserted, in table order. -/
def baseCategoryCounts (question : String) (question_words : List String) :
    List (String × Nat) :=
  category_keywords.map fun p => (p.1, categoryMatchCount question question_words p.2)

/-- The entries added by the `other_categories` loop (lines 693-696): a
category is inserted at its first matching keyword, with one point per
matching keyword.  No name collides with the first six, so the dict ends as
the base list followed by these. -/
def otherCategoryCounts (question : String) : List (String × Nat) :=
  other_categories.filterMap fun p =>
    let c := p.2.countP fun kw => wb_search kw question
    if c > 0 then some (p.1, c) else none

/-- Python `max(items, key=lambda x: x[1])`: the first pair with the
maximal count, in insertion order. -/
def maxByCount (best : String × Nat) : List (String × Nat) → String × Nat
  | [] => best
  | p :: t => if p.2 > best.2 then maxByCount p t else maxByCount best t

/-- Lines 646-718 of `categorize_question`: the generic classification run
after the personal-sensitive checks. -/
def categorize_tail (question : String) (question_words : List String) : String :=
  let counts := baseCategoryCounts question question_words ++ otherCategoryCounts question
  if education_keywords.any (fun kw => wb_search kw question) then "pendidikan"
  else
    let fallthrough :=
      if py_in "python" (py_lower question) then "teknologi"
      else if (py_split_ws question).length < 3 then "unclear_question"
      else "general"
    match counts with
    | [] => fallthrough
    | c :: t =>
      let top := maxByCount c t
      if top.2 > 0 then top.1 else fallthrough

/-- The follow-up branch of lines 626-631 fires only when the detected
intent is `followup` and the context deems a follow-up relevant. -/
def followupBranchTaken (question : String) (octx : Option ConversationContext) : Bool :=
  match octx with
  | some ctx =>
    detect_question_intent question (some ctx) = "followup" &&
      is_context_relevant ctx "followup"
  | none => false

/-- `last_category + "_followup" if last_category else "general"`: an
absent or empty (falsy) `last_category` yields `"general"` (line 631). -/
def followupFromLast : Option String → String
  | some lc => if lc = "" then "general" else lc ++ "_followup"
  | none => "general"

/-- The value returned by the follow-up branch (line 631). -/
def followupBranchResult (octx : Option ConversationContext) : String :=
  match octx with
  | some ctx => followupFromLast ctx.last_category
  | none => "general"

/-- `categorize_question` (main.py lines 594-718). -/
def categorize_question (question0 : String) (octx : Option ConversationContext) : String :=
  let question := preprocess_question question0
  let question_words := py_split_ws question
  if is_gibberish question then "gibberish"
  else if question_words.length ≤ 2 &&
      tech_keywords.any (fun kw => py_in kw (py_lower question)) then "teknologi"
  else if recruitmentLits.any (fun p => py_in p question) then "rekrutmen"
  else if followupBranchTaken question octx then followupBranchResult octx
  else
    match personal_category question with
    | some cat => cat
    | none => categorize_tail question question_words

/-! ## Documents and the `SimpleRAGSystem` state (rag_system.py)

Documents are modelled with the four fields used by the engine (the loader
`load_knowledge_from_file` validates `category`/`title`/`content`; the
`.get` defaults of the Python code therefore never fire). -/

structure Document where
  category : String
  title : String
  content : String
  keywords : List String
deriving DecidableEq

/-- An element of the list returned by `retrieve_relevant_docs`: the
`content` is `f"{title}: {content}"`, the three `metadata` entries are
inlined as fields. -/
structure RetrievedDoc where
  content : String
  title : String
  category : String
  keywords : List String
  similarity_score : ℚ
deriving DecidableEq

/-- The mutable state of `SimpleRAGSystem`.  The Python `defaultdict`s are
insertion-ordered association lists. -/
structure RagSystem where
  documents : List Document
  keyword_index : List (String × List Nat)
  category_index : List (String × List Nat)
  title_index : List (String × Nat)
  content_vectors : List (List (String × ℚ))
deriving DecidableEq

/-- `SimpleRAGSystem.__init__`. -/
def emptyRag : RagSystem := ⟨[], [], [], [], []⟩

def assocFind? {β : Type} (l : List (String × β)) (k : String) : Option β :=
  (l.find? fun p => p.1 == k).map (·.2)

/-- `defaultdict(list)[k].append(i)`. -/
def multimapAppend (l : List (String × List Nat)) (k : String) (i : Nat) :
    List (String × List Nat) :=
  if (l.find? fun p => p.1 == k).isSome then
    l.map fun p => if p.1 == k then (p.1, p.2 ++ [i]) else p
  else l ++ [(k, [i])]

/-- `if i not in index[k]: index[k].append(i)` on a `defaultdict(list)`. -/
def keywordIndexAdd (l : List (String × List Nat)) (k : String) (i : Nat) :
    List (String × List Nat) :=
  match assocFind? l k with
  | some lst => if i ∈ lst then l else multimapAppend l k i
  | none => l ++ [(k, [i])]

/-- Plain dict assignment `d[k] = i`. -/
def assocSet (l : List (String × Nat)) (k : String) (i : Nat) : List (String × Nat) :=
  if (l.find? fun p => p.1 == k).isSome then
    l.map fun p => if p.1 == k then (p.1, i) else p
  else l ++ [(k, i)]

/-- `' '.join(keywords)`. -/
def joinSpace : List String → String
  | [] => ""
  | [x] => x
  | x :: t => x ++ " " ++ joinSpace t

/-- `f"{content} {title} {' '.join(keywords)}"` with content and title
lowercased (the whole text is lowercased again before tokenization). -/
def docText (d : Document) : String :=
  d.content ++ " " ++ d.title ++ " " ++ joinSpace d.keywords

/-- `meaningful_words`: word runs of the document text of length > 2 that
are not all digits (`w.isdigit()`). -/
def docWords (d : Document) : List String :=
  (py_word_runs (docText d)).filter fun w =>
    decide (w.length > 2) && !(w.data.all Char.isDigit)

/-- `doc_freq[w]`: the number of documents whose word set contains `w`. -/
def docFreq (docs : List Document) (w : String) : Nat :=
  docs.countP fun d => (docWords d).contains w

/-- First-pass indexing of one document (category, title and keyword
indexes). -/
def addDocIndexes (st : RagSystem) (i : Nat) (d : Document) : RagSystem :=
  let st := { st with category_index := multimapAppend st.category_index d.category i }
  let t := py_lower d.title
  let st := if t ≠ "" then { st with title_index := assocSet st.title_index t i } else st
  { st with
    keyword_index := (docWords d).foldl (fun ki w => keywordIndexAdd ki w i) st.keyword_index }

/-- Newton iteration for the integer square root, with explicit fuel so
that it evaluates by plain structural recursion. -/
def natSqrtAux (n : Nat) : Nat → Nat → Nat
  | 0, g => g
  | fuel + 1, g =>
    let g' := (g + n / g) / 2
    if g' < g then natSqrtAux n fuel g' else g

/-- Floor integer square root (Newton iteration from `n/2 + 1`, which
bounds the root for every `n ≥ 2`; the guesses strictly decrease, so `n`
steps of fuel always suffice). -/
def natSqrtFn (n : Nat) : Nat :=
  if n ≤ 1 then n else natSqrtAux n n (n / 2 + 1)

/-- Exact rational square root, modelling float `** 0.5`: exact whenever the
argument is the square of a rational (`sqrt (a/b) = sqrt (a*b) / b`), the
floor approximation otherwise.  Every square root reached by the concrete
corpora in this file falls in the exact case. -/
def ratSqrt (q : ℚ) : ℚ :=
  if q ≤ 0 then 0 else (natSqrtFn (q.num.toNat * q.den) : ℚ) / (q.den : ℚ)

/-- The tf-idf style vector of one document (second pass of
`_build_advanced_indexes`). -/
def docVector (total : Nat) (docs : List Document) (d : Document) : List (String × ℚ) :=
  let mw := docWords d
  (firstDedup mw).map fun w =>
    let tf : ℚ := if mw.length = 0 then 0 else (mw.count w : ℚ) / (mw.length : ℚ)
    let df := docFreq docs w
    let idf : ℚ := if df > 0 then (total : ℚ) / (df : ℚ) else 0
    let mult : ℚ :=
      if (d.keywords.map py_lower).contains w then 3
      else if py_in w (py_lower d.title) then 2
      else 1
    (w, tf * idf * mult)

/-- `_build_advanced_indexes`: appends to the existing indexes and vector
list — nothing is cleared first. -/
def build_advanced_indexes (s : RagSystem) : RagSystem :=
  let docs := s.documents
  let s := docs.enum.foldl (fun st p => addDocIndexes st p.1 p.2) s
  { s with content_vectors := s.content_vectors ++ docs.map (docVector docs.length docs) }

/-- `load_knowledge_base`: assigns `documents` and rebuilds the indexes;
with well-typed document lists the body cannot raise, so it returns `True`
together with the new state. -/
def load_knowledge_base (s : RagSystem) (knowledge_data : List Document) :
    Bool × RagSystem :=
  (true, build_advanced_indexes { s with documents := knowledge_data })

/-! ## `difflib.get_close_matches` (used for fuzzy matching)

`get_close_matches(word, keys, n=3, cutoff=0.8)` keeps the possibilities
whose `SequenceMatcher.ratio()` against `word` reaches the cutoff (the
`real_quick_ratio`/`quick_ratio` pre-checks are upper bounds of `ratio`, so
they do not change the result) and returns the `n` best, ordered by the
`(ratio, possibility)` pair descending.  The matcher is embedded below:
`b2j` with the autojunk popularity rule, the longest-match dynamic
programming row by row, the two junk-free extension loops, and the
recursive matching-blocks total. -/

/-- Ascending positions of `c` in `b`. -/
def posOf (b : List Char) (c : Char) : List Nat :=
  (b.enum.filter fun p => p.2 == c).map (·.1)

/-- `b2j` with autojunk: positions of `c` in `b`, emptied for popular
characters when `len(b) >= 200`. -/
def b2jOf (b : List Char) (c : Char) : List Nat :=
  let ps := posOf b c
  if b.length ≥ 200 && ps.length > b.length / 100 + 1 then [] else ps

/-- One row of the longest-match dynamic programming: scan the positions of
`a[i]` in `b` (ascending), extending runs from the previous row `j2len`;
positions below `blo` are skipped and the scan breaks at `bhi`. -/
def dpRow (j2len : Nat → Nat) (blo bhi i : Nat) :
    List Nat → (Nat → Nat) → Nat × Nat × Nat → (Nat → Nat) × (Nat × Nat × Nat)
  | [], newj, best => (newj, best)
  | j :: rest, newj, best =>
    if j < blo then dpRow j2len blo bhi i rest newj best
    else if j ≥ bhi then (newj, best)
    else
      let k := if j = 0 then 1 else j2len (j - 1) + 1
      let newj' := fun x => if x = j then k else newj x
      let best' := if k > best.2.2 then (i + 1 - k, j + 1 - k, k) else best
      dpRow j2len blo bhi i rest newj' best'

/-- Left extension loop of `find_longest_match` (the junk set is empty). -/
def extendLeft (a b : List Char) (alo blo : Nat) :
    Nat → Nat × Nat × Nat → Nat × Nat × Nat
  | 0, st => st
  | fuel + 1, (besti, bestj, size) =>
    if decide (besti > alo) && decide (bestj > blo) &&
        (a.getD (besti - 1) ' ' == b.getD (bestj - 1) ' ') then
      extendLeft a b alo blo fuel (besti - 1, bestj - 1, size + 1)
    else (besti, bestj, size)

/-- Right extension loop of `find_longest_match`. -/
def extendRight (a b : List Char) (ahi bhi besti bestj : Nat) :
    Nat → Nat → Nat
  | 0, size => size
  | fuel + 1, size =>
    if decide (besti + size < ahi) && decide (bestj + size < bhi) &&
        (a.getD (besti + size) ' ' == b.getD (bestj + size) ' ') then
      extendRight a b ahi bhi besti bestj fuel (size + 1)
    else size

/-- `SequenceMatcher.find_longest_match` on the slice
`a[alo:ahi], b[blo:bhi]`. -/
def find_longest_match (a b : List Char) (b2j : Char → List Nat)
    (alo ahi blo bhi : Nat) : Nat × Nat × Nat :=
  let rows := (List.range' alo (ahi - alo)).foldl
    (fun st i => dpRow st.1 blo bhi i (b2j (a.getD i ' ')) (fun _ => 0) st.2)
    (fun _ => 0, (alo, blo, 0))
  let best0 := rows.2
  let stepped := extendLeft a b alo blo best0.1 best0
  let besti := stepped.1
  let bestj := stepped.2.1
  (besti, bestj, extendRight a b ahi bhi besti bestj ahi stepped.2.2)

/-- Total size of all matching blocks of `get_matching_blocks`: the longest
match plus, recursively, the blocks on each side.  The fuel is spent once
per recursion level; `a.length + b.length + 1` always suffices since each
level strictly shrinks the ranges. -/
def matchTotalF (a b : List Char) (b2j : Char → List Nat) :
    Nat → Nat → Nat → Nat → Nat → Nat
  | 0, _, _, _, _ => 0
  | fuel + 1, alo, ahi, blo, bhi =>
    let m := find_longest_match a b b2j alo ahi blo bhi
    let i := m.1
    let j := m.2.1
    let k := m.2.2
    if k = 0 then 0
    else
      k + (if decide (alo < i) && decide (blo < j) then
            matchTotalF a b b2j fuel alo i blo j else 0)
        + (if decide (i + k < ahi) && decide (j + k < bhi) then
            matchTotalF a b b2j fuel (i + k) ahi (j + k) bhi else 0)

/-- Total matched characters between `a` (sequence 1) and `b`
(sequence 2). -/
def matchingTotal (a b : List Char) : Nat :=
  matchTotalF a b (b2jOf b) (a.length + b.length + 1) 0 a.length 0 b.length

/-- `SequenceMatcher.ratio()`: `2*M/T`, or 1.0 when both sequences are
empty. -/
def seqMatchRatioVal (a b : List Char) : ℚ :=
  let t := a.length + b.length
  if t = 0 then 1 else (2 * (matchingTotal a b : ℚ)) / (t : ℚ)

/-- Insert `x` after every `y` for which `keep y x` holds: folding this is
a stable sort placing new elements after their ties. -/
def insertByKeep {α : Type} (keep : α → α → Bool) (x : α) : List α → List α
  | [] => [x]
  | y :: t => if keep y x then y :: insertByKeep keep x t else x :: y :: t

/-- Stable sort (equal to Python's stable `sorted`). -/
def stableSortByKeep {α : Type} (keep : α → α → Bool) (l : List α) : List α :=
  l.foldl (fun acc x => insertByKeep keep x acc) []

/-- Descending order on `(ratio, string)` pairs, ties by the string
(Python tuple comparison under `reverse=True`). -/
def pairKeep (y x : ℚ × String) : Bool :=
  decide (x.1 < y.1) || (decide (x.1 = y.1) && !decide (y.2 < x.2))

/-- `difflib.get_close_matches(word, possibilities, n, cutoff)`. -/
def get_close_matches (word : String) (possibilities : List String) (n : Nat)
    (cutoff : ℚ) : List String :=
  let scored := possibilities.filterMap fun x =>
    let r := seqMatchRatioVal x.data word.data
    if r ≥ cutoff then some (r, x) else none
  ((stableSortByKeep pairKeep scored).take n).map (·.2)

/-! ## `retrieve_relevant_docs` (rag_system.py lines 101-194)

The whole body sits in a `try` block whose `except` returns `[]`; the only
operations that can raise on well-typed state are the `self.documents[i]`
indexings, modelled through `Option` (`none` = exception). -/

/-- `doc_scores[i] += v` on `defaultdict(float)` (insertion-ordered). -/
def assocAdd {κ : Type} [BEq κ] (l : List (κ × ℚ)) (k : κ) (v : ℚ) : List (κ × ℚ) :=
  if (l.find? fun p => p.1 == k).isSome then
    l.map fun p => if p.1 == k then (p.1, p.2 + v) else p
  else l ++ [(k, v)]

/-- Progressive scoring of one exact keyword hit (lines 122-134). -/
def scoreOneDoc (d : Document) (w : String) (acc : List (Nat × ℚ)) (i : Nat) :
    List (Nat × ℚ) :=
  if (d.keywords.map py_lower).contains w then assocAdd acc i 5
  else if py_in w (py_lower d.title) then assocAdd acc i 3
  else if py_in w (py_lower d.content) then assocAdd acc i 1
  else acc

/-- Method 1 inner loop over `keyword_index[word]` (lines 115-134). -/
def scoreExactWord (s : RagSystem) (f : Option String) (w : String) :
    List Nat → List (Nat × ℚ) → Option (List (Nat × ℚ))
  | [], acc => some acc
  | i :: rest, acc =>
    match s.documents[i]? with
    | none => none
    | some d =>
      match f with
      | some cf =>
        if d.category ≠ cf then scoreExactWord s f w rest acc
        else scoreExactWord s f w rest (scoreOneDoc d w acc i)
      | none => scoreExactWord s f w rest (scoreOneDoc d w acc i)

/-- Method 2 inner loop over `keyword_index[similar_word]` (lines 142-147);
documents are only indexed when a category filter is present. -/
def scoreFuzzyWord (s : RagSystem) (f : Option String) :
    List Nat → List (Nat × ℚ) → Option (List (Nat × ℚ))
  | [], acc => some acc
  | i :: rest, acc =>
    match f with
    | none => scoreFuzzyWord s f rest (assocAdd acc i (1/2))
    | some cf =>
      match s.documents[i]? with
      | none => none
      | some d =>
        if d.category ≠ cf then scoreFuzzyWord s f rest acc
        else scoreFuzzyWord s f rest (assocAdd acc i (1/2))

/-- Loop over the close matches of one query word (skipping the word
itself). -/
def scoreFuzzyList (s : RagSystem) (f : Option String) (w : String) :
    List String → List (Nat × ℚ) → Option (List (Nat × ℚ))
  | [], acc => some acc
  | sw :: rest, acc =>
    if sw = w then scoreFuzzyList s f w rest acc
    else
      match scoreFuzzyWord s f ((assocFind? s.keyword_index sw).getD []) acc with
      | none => none
      | some acc' => scoreFuzzyList s f w rest acc'

/-- Methods 1 and 2 over all query words (lines 113-147). -/
def scorePass1 (s : RagSystem) (f : Option String) :
    List String → List (Nat × ℚ) → Option (List (Nat × ℚ))
  | [], acc => some acc
  | w :: rest, acc =>
    let exact :=
      if (s.keyword_index.find? fun p => p.1 == w).isSome then
        scoreExactWord s f w ((assocFind? s.keyword_index w).getD []) acc
      else some acc
    match exact with
    | none => none
    | some acc1 =>
      let sims := get_close_matches w (s.keyword_index.map (·.1)) 3 (4/5)
      match scoreFuzzyList s f w sims acc1 with
      | none => none
      | some acc2 => scorePass1 s f rest acc2

/-- The `(dot_product, doc_vector_sum, query_vector_sum)` accumulation of
method 3 (lines 156-166). -/
def cosineAcc (vec : List (String × ℚ)) (qws : List String) : ℚ × ℚ × Nat :=
  qws.foldl
    (fun acc w =>
      match assocFind? vec w with
      | some wt => (acc.1 + wt, acc.2.1 + wt * wt, acc.2.2 + 1)
      | none => acc)
    (0, 0, 0)

/-- Method 3 over the enumerated `content_vectors` (lines 149-170); the
iteration count follows `content_vectors`, so a vector list longer than
`documents` scores phantom indices. -/
def scorePass3Aux (s : RagSystem) (f : Option String) (qws : List String) :
    List (Nat × List (String × ℚ)) → List (Nat × ℚ) → Option (List (Nat × ℚ))
  | [], acc => some acc
  | (i, vec) :: rest, acc =>
    let visit : Option Bool :=
      match f with
      | none => some true
      | some cf =>
        match s.documents[i]? with
        | none => none
        | some d => some (d.category = cf)
    match visit with
    | none => none
    | some b =>
      if b then
        let c := cosineAcc vec qws
        let acc' :=
          if decide (c.2.1 > 0) && decide (c.2.2 > 0) then
            assocAdd acc i ((c.1 / (ratSqrt c.2.1 * ratSqrt ((c.2.2 : ℚ)))) * 2)
          else acc
        scorePass3Aux s f qws rest acc'
      else scorePass3Aux s f qws rest acc

def scorePass3 (s : RagSystem) (f : Option String) (qws : List String)
    (acc : List (Nat × ℚ)) : Option (List (Nat × ℚ)) :=
  scorePass3Aux s f qws s.content_vectors.enum acc

/-- `sorted(doc_scores.items(), key=lambda x: x[1], reverse=True)`:
stable, descending by score. -/
def sortScoresDesc (l : List (Nat × ℚ)) : List (Nat × ℚ) :=
  stableSortByKeep (fun y x => decide (x.2 ≤ y.2)) l

/-- One entry of the result list (lines 179-187). -/
def mkRetrieved (d : Document) (sc : ℚ) : RetrievedDoc :=
  ⟨d.title ++ ": " ++ d.content, d.title, d.category, d.keywords, min (sc / 10) 1⟩

/-- The result loop over `sorted_docs[:top_k]` (lines 175-187): entries
with raw score above 0.1 are materialized, indexing `documents[i]`. -/
def buildResults (docs : List Document) : List (Nat × ℚ) → Option (List RetrievedDoc)
  | [] => some []
  | (i, sc) :: t =>
    if sc > 1/10 then
      match docs[i]? with
      | none => none
      | some d => (buildResults docs t).map (fun r => mkRetrieved d sc :: r)
    else buildResults docs t

/-- The body of `retrieve_relevant_docs` inside its `try`; `none` models an
exception reaching the `except` handler. -/
def retrieveCore (s : RagSystem) (query : String) (top_k : Nat)
    (category_filter : Option String) : Option (List RetrievedDoc) :=
  let qws := (py_word_runs query).filter fun w => decide (w.length > 2)
  if qws.isEmpty then some []
  else
    match scorePass1 s category_filter qws [] with
    | none => none
    | some sc1 =>
      match scorePass3 s category_filter qws sc1 with
      | none => none
      | some sc => buildResults s.documents ((sortScoresDesc sc).take top_k)

/-- `retrieve_relevant_docs`: the `except` handler maps any internal error
to `[]`. -/
def retrieve_relevant_docs (s : RagSystem) (query : String) (top_k : Nat)
    (category_filter : Option String) : List RetrievedDoc :=
  (retrieveCore s query top_k category_filter).getD []

/-! ## `build_rag_context` (lines 196-234) -/

/-- Per-entry trimming (lines 209-213): 300 characters when the similarity
exceeds 0.7, otherwise 150, with an ellipsis on truncation. -/
def trimContent (r : RetrievedDoc) : String :=
  if r.similarity_score > 7/10 then
    if r.content.length > 300 then py_take r.content 300 ++ "..." else r.content
  else
    if r.content.length > 150 then py_take r.content 150 ++ "..." else r.content

/-- The `context_parts` list (lines 203-215): entries with similarity above
0.2, formatted as `[category] trimmed`. -/
def contextParts (s : RagSystem) (query : String) (top_k : Nat)
    (category_filter : Option String) : List String :=
  (retrieve_relevant_docs s query top_k category_filter).filterMap fun r =>
    if r.similarity_score > 1/5 then
      some ("[" ++ r.category ++ "] " ++ trimContent r)
    else none

/-- `"\n".join`. -/
def joinNL : List String → String
  | [] => ""
  | [x] => x
  | x :: t => x ++ "\n" ++ joinNL t

/-- The greedy keep-while-it-fits loop of lines 222-229: parts are kept
while the running total of part lengths stays within the cap (newline
separators are not counted). -/
def greedyParts (cap : Nat) : List String → Nat → List String
  | [], _ => []
  | p :: ps, cur =>
    if cur + p.length ≤ cap then p :: greedyParts cap ps (cur + p.length) else []

/-- `build_rag_context` (lines 196-234). -/
def build_rag_context (s : RagSystem) (query : String) (top_k : Nat)
    (category_filter : Option String) : String :=
  let docs := retrieve_relevant_docs s query top_k category_filter
  if docs.isEmpty then ""
  else
    let parts := contextParts s query top_k category_filter
    if parts.isEmpty then ""
    else
      let full := joinNL parts
      if full.length > 800 then joinNL (greedyParts 800 parts 0) else full

/-! ## `suggest_related_topics` (lines 236-283) -/

/-- Python `str.title()` (ASCII): uppercase a letter that follows a
non-letter, lowercase the rest. -/
def titleCaseAux (prevAlpha : Bool) : List Char → List Char
  | [] => []
  | c :: t =>
    if c.isAlpha then
      (if prevAlpha then c.toLower else c.toUpper) :: titleCaseAux true t
    else c :: titleCaseAux false t

def py_title_case (s : String) : String := String.mk (titleCaseAux false s.data)

/-- `re.sub(r'^(keahlian|pengalaman|proyek|hobi)\s+', '', s)`: the four
alternatives are mutually exclusive prefixes, and the whole pattern only
matches when whitespace follows the keyword. -/
def stripTopicPreAux : List String → String → String
  | [], s => s
  | kw :: rest, s =>
    if startsWithChars kw.data s.data then
      match s.data.drop kw.data.length with
      | c :: r => if c.isWhitespace then String.mk ((c :: r).dropWhile Char.isWhitespace) else s
      | [] => s
    else stripTopicPreAux rest s

def stripTopicPre (s : String) : String :=
  stripTopicPreAux ["keahlian", "pengalaman", "proyek", "hobi"] s

def category_fallback_topics : List (String × List String) :=
  [("keahlian", ["Keahlian Python", "Web Development", "Data Science"]),
   ("proyek", ["Rush Hour Solver", "Algorithm Projects", "Portfolio Development"]),
   ("hobi", ["Street Food Journey", "Reading Habits", "Technology Interests"]),
   ("musik", ["Music Preferences", "Coding Playlist", "Nostalgic Songs"])]

/-- The fallback loop of lines 262-277: the first category name found in
the query (none of the four contains an underscore, so the two candidate
substrings coincide) contributes topics up to three. -/
def fallbackTopics (query : String) (topics0 : List String) : List String :=
  match category_fallback_topics.find? (fun p => py_in p.1 (py_lower query)) with
  | none => topics0
  | some p =>
    p.2.foldl
      (fun ts ft => if !(ts.contains ft) && decide (ts.length < 3) then ts ++ [ft] else ts)
      topics0

/-- `suggest_related_topics` (lines 236-283); on well-typed state the body
cannot raise, so the `except []` branch is unreachable. -/
def suggest_related_topics (s : RagSystem) (query : String) (top_k : Nat) :
    List String :=
  let docs := retrieve_relevant_docs s query top_k none
  let tscores := docs.foldl
    (fun acc r =>
      if r.similarity_score > 3/10 then
        let title := String.mk (stripChars r.title.data)
        if title ≠ "" then
          assocAdd acc (py_title_case (stripTopicPre (py_lower title))) r.similarity_score
        else acc
      else acc)
    ([] : List (String × ℚ))
  let sortedT := stableSortByKeep (fun y x => decide (x.2 ≤ y.2)) tscores
  let topics := (sortedT.take 3).foldl
    (fun ts p => if decide (p.2 > 2/5) && !(ts.contains p.1) then ts ++ [p.1] else ts)
    ([] : List String)
  let topics := if topics.length < 3 then fallbackTopics query topics else topics
  topics.take 3

/-- Every category name the generic tail can produce. -/
def allTailCats : List String :=
  ["lagu_favorit", "makanan_favorit", "hobi", "keahlian", "proyek", "rekrutmen",
   "mata_kuliah", "lokasi", "prestasi", "lomba", "data_science", "tools", "karakter",
   "portofolio_tech", "rencana", "pekerjaan", "pengalaman", "manajemen_waktu",
   "manajemen_stres", "cerita_kuliah", "organisasi", "belajar_mandiri",
   "belajar_kegagalan", "kerja_tim", "kebiasaan_ngoding", "moto_hidup",
   "pendidikan", "teknologi", "unclear_question", "general"]

/-- Sum of the lengths of a list of strings. -/
def sumLen (l : List String) : Nat := (l.map String.length).sum

/-! ## Basic lemmas about the string primitives -/

theorem startsWithChars_subset {n h : List Char} (hs : startsWithChars n h = true) :
    ∀ c ∈ n, c ∈ h := by
  induction n generalizing h with
  | nil => intro c hc; cases hc
  | cons a as ih =>
    cases h with
    | nil => simp [startsWithChars] at hs
    | cons b bs =>
      simp only [startsWithChars, Bool.and_eq_true, decide_eq_true_eq] at hs
      intro c hc
      rcases List.mem_cons.mp hc with rfl | hc
      · exact hs.1 ▸ List.mem_cons_self _ _
      · exact List.mem_cons_of_mem _ (ih hs.2 c hc)

theorem substrChars_subset {n h : List Char} (hs : substrChars n h = true) :
    ∀ c ∈ n, c ∈ h := by
  induction h with
  | nil =>
    simp only [substrChars, List.isEmpty_iff] at hs
    subst hs; intro c hc; cases hc
  | cons b bs ih =>
    simp only [substrChars, Bool.or_eq_true] at hs
    rcases hs with hs | hs
    · exact startsWithChars_subset hs
    · exact fun c hc => List.mem_cons_of_mem _ (ih hs c hc)

theorem py_in_subset {t s : String} (h : py_in t s = true) :
    ∀ c ∈ t.data, c ∈ s.data := substrChars_subset h

theorem map_fixed_id {l : List Char} {f : Char → Char} (h : ∀ c ∈ l, f c = c) :
    l.map f = l := by
  induction l with
  | nil => rfl
  | cons a t ih =>
    simp only [List.map_cons, h a (List.mem_cons_self a t),
      ih fun c hc => h c (List.mem_cons_of_mem a hc)]

theorem collapseWsAux_of_nows {l : List Char} (h : ∀ c ∈ l, c.isWhitespace = false) :
    ∀ b, collapseWsAux b l = l := by
  induction l with
  | nil => intro b; rfl
  | cons c t ih =>
    intro b
    simp only [collapseWsAux, h c (List.mem_cons_self c t), Bool.false_eq_true,
      if_false, List.cons.injEq, true_and]
    exact ih (fun x hx => h x (List.mem_cons_of_mem c hx)) false

theorem dropWhile_of_all_false {p : Char → Bool} {l : List Char}
    (h : ∀ c ∈ l, p c = false) : l.dropWhile p = l := by
  cases l with
  | nil => rfl
  | cons c t => rw [List.dropWhile_cons, h c (List.mem_cons_self c t)]; simp

theorem stripChars_of_nows {l : List Char} (h : ∀ c ∈ l, c.isWhitespace = false) :
    stripChars l = l := by
  unfold stripChars
  rw [dropWhile_of_all_false h, dropWhile_of_all_false
    (fun c hc => h c (List.mem_reverse.mp hc)), List.reverse_reverse]

theorem String.mk_data (s : String) : String.mk s.data = s := rfl

theorem data_append_word (w1 w2 : String) :
    (w1 ++ " " ++ w2).data = w1.data ++ ' ' :: w2.data := by
  rw [String.data_append, String.data_append]
  simp

/-- `collapseWs` fixes a two-word string. -/
theorem collapseWsAux_two_word {w1 w2 : List Char}
    (h1 : ∀ c ∈ w1, c.isWhitespace = false) (h2 : ∀ c ∈ w2, c.isWhitespace = false) :
    collapseWsAux false (w1 ++ ' ' :: w2) = w1 ++ ' ' :: w2 := by
  induction w1 with
  | nil =>
    simp only [List.nil_append, collapseWsAux]
    rw [if_pos (show (' '.isWhitespace = true) from rfl)]
    rw [collapseWsAux_of_nows h2 true]
    simp
  | cons c t ih =>
    simp only [List.cons_append, collapseWsAux, h1 c (List.mem_cons_self c t),
      Bool.false_eq_true, if_false, List.cons.injEq, true_and]
    exact ih fun x hx => h1 x (List.mem_cons_of_mem c hx)

theorem stripChars_two_word {w1 w2 : List Char} (hn1 : w1 ≠ []) (hn2 : w2 ≠ [])
    (h1 : ∀ c ∈ w1, c.isWhitespace = false) (h2 : ∀ c ∈ w2, c.isWhitespace = false) :
    stripChars (w1 ++ ' ' :: w2) = w1 ++ ' ' :: w2 := by
  unfold stripChars
  have hall : ∀ c ∈ w1 ++ ' ' :: w2, c.isWhitespace = false ∨ c = ' ' := by
    intro c hc
    rcases List.mem_append.mp hc with hc | hc
    · exact Or.inl (h1 c hc)
    · rcases List.mem_cons.mp hc with rfl | hc
      · exact Or.inr rfl
      · exact Or.inl (h2 c hc)
  have hd1 : (w1 ++ ' ' :: w2).dropWhile Char.isWhitespace = w1 ++ ' ' :: w2 := by
    cases w1 with
    | nil => exact absurd rfl hn1
    | cons c t => rw [List.cons_append, List.dropWhile_cons, h1 c (List.mem_cons_self c t)]; simp
  rw [hd1]
  have hrev : (w1 ++ ' ' :: w2).reverse = w2.reverse ++ [' '] ++ w1.reverse := by
    simp
  rw [hrev]
  have hd2 : (w2.reverse ++ [' '] ++ w1.reverse).dropWhile Char.isWhitespace =
      w2.reverse ++ [' '] ++ w1.reverse := by
    cases hw : w2.reverse with
    | nil => exact absurd (by simpa using congrArg List.reverse hw) hn2
    | cons c t =>
      have hc : c ∈ w2 := by
        have : c ∈ w2.reverse := hw ▸ List.mem_cons_self c t
        exact List.mem_reverse.mp this
      rw [List.cons_append, List.cons_append, List.dropWhile_cons, h2 c hc]
      simp
  rw [hd2]
  simp

/-- `splitWsChars.go` walks through a whitespace-free block. -/
theorem splitWs_go_nonws {w : List Char} (h : ∀ c ∈ w, c.isWhitespace = false) :
    ∀ acc rest, splitWsChars.go acc (w ++ rest) = splitWsChars.go (w.reverse ++ acc) rest := by
  induction w with
  | nil => intro acc rest; simp
  | cons c t ih =>
    intro acc rest
    rw [List.cons_append, splitWsChars.go]
    simp only [h c (List.mem_cons_self c t), Bool.false_eq_true, if_false]
    rw [ih (fun x hx => h x (List.mem_cons_of_mem c hx)) (c :: acc) rest]
    simp

theorem splitWsChars_one_word {w : List Char} (hn : w ≠ [])
    (h : ∀ c ∈ w, c.isWhitespace = false) : splitWsChars w = [w] := by
  unfold splitWsChars
  have := splitWs_go_nonws h [] []
  rw [List.append_nil] at this
  rw [this, splitWsChars.go]
  simp [hn]

theorem splitWsChars_two_word {w1 w2 : List Char} (hn1 : w1 ≠ []) (hn2 : w2 ≠ [])
    (h1 : ∀ c ∈ w1, c.isWhitespace = false) (h2 : ∀ c ∈ w2, c.isWhitespace = false) :
    splitWsChars (w1 ++ ' ' :: w2) = [w1, w2] := by
  unfold splitWsChars
  rw [splitWs_go_nonws h1, List.append_nil, splitWsChars.go]
  simp only [Char.isWhitespace, if_true]
  have hacc : (w1.reverse.isEmpty) = false := by
    cases w1 with
    | nil => exact absurd rfl hn1
    | cons c t => simp
  norm_num [hacc]
  have := splitWs_go_nonws h2 [] []
  rw [List.append_nil] at this
  rw [this, splitWsChars.go]
  simp [hn2]

/-! ## Consonant-run counting lemmas (for the gibberish claims) -/

theorem le_maxConsRunAux (l : List Char) : ∀ cur best, best ≤ maxConsRunAux cur best l := by
  induction l with
  | nil => intro cur best; simp [maxConsRunAux]
  | cons c t ih =>
    intro cur best
    by_cases hc : c ∈ consonantChars
    · simp only [maxConsRunAux, if_pos hc]
      exact le_trans (le_max_left best (cur + 1)) (ih (cur + 1) (max best (cur + 1)))
    · simp only [maxConsRunAux, if_neg hc]
      exact ih 0 best

/-- With every consonant run bounded by 3, the consonants are at most three
per non-consonant separator plus the trailing allowance `3 - cur`. -/
theorem consCount_le (l : List Char) : ∀ cur best, maxConsRunAux cur best l ≤ 3 → cur ≤ 3 →
    l.countP (fun c => decide (c ∈ consonantChars)) ≤
      3 * l.countP (fun c => !decide (c ∈ consonantChars)) + (3 - cur) := by
  induction l with
  | nil => intro cur best _ _; simp [List.countP_nil]
  | cons c t ih =>
    intro cur best hrun hcur
    by_cases hc : c ∈ consonantChars
    · simp only [maxConsRunAux, if_pos hc] at hrun
      have hc1 : cur + 1 ≤ 3 :=
        le_trans (le_trans (le_max_right best (cur + 1)) (le_maxConsRunAux t _ _)) hrun
      have hrec := ih (cur + 1) (max best (cur + 1)) hrun hc1
      simp [List.countP_cons, hc]
      omega
    · simp only [maxConsRunAux, if_neg hc] at hrun
      have hrec := ih 0 best hrun (by omega)
      simp [List.countP_cons, hc]
      omega

/-- Disjoint split of a count. -/
theorem countP_split {α : Type} (p q r : α → Bool) (l : List α)
    (h : ∀ c ∈ l, p c = (q c || r c)) (hd : ∀ c ∈ l, !(q c && r c)) :
    l.countP p = l.countP q + l.countP r := by
  induction l with
  | nil => simp [List.countP_nil]
  | cons a t ih =>
    have hrec := ih (fun c hc => h c (List.mem_cons_of_mem a hc))
      (fun c hc => hd c (List.mem_cons_of_mem a hc))
    have ha := h a (List.mem_cons_self a t)
    have hda := hd a (List.mem_cons_self a t)
    simp only [List.countP_cons, ha]
    cases hq : q a <;> cases hr : r a <;> simp [hq, hr] at hda ⊢ <;> omega

/-! ## Preprocessing identity and `is_gibberish` behaviour on letter input -/

theorem preprocess_fixed {l : List Char}
    (hfix : ∀ c ∈ l, Char.toLower c = c ∧ (isWordChar c || c.isWhitespace) = true)
    (hcoll : collapseWs l = l) (hstrip : stripChars l = l) :
    preprocess_question (String.mk l) = String.mk l := by
  have e1 : l.map Char.toLower = l := map_fixed_id fun c hc => (hfix c hc).1
  have e2 : l.map (fun c => if (isWordChar c || c.isWhitespace) = true then c else ' ') = l :=
    map_fixed_id fun c hc => if_pos (hfix c hc).2
  simp only [preprocess_question]
  rw [e1, e2, hcoll, hstrip]

theorem lower_letter_fixed : ∀ c ∈ lowercaseLetters,
    Char.toLower c = c ∧ (isWordChar c || c.isWhitespace) = true ∧
    c.isWhitespace = false ∧ c.isAlpha = true ∧ c ≠ ' ' := by decide

theorem consonant_letter : ∀ c ∈ consonantChars, c ∈ lowercaseLetters := by decide

/-- Part 1 of the gibberish claim at the `is_gibberish` level: a pure
consonant string of length at least 2 is flagged (it is a single word and
matches no whitelisted term, each of which contains a non-consonant). -/
theorem is_gibberish_consonants {s : String} (hlen : 2 ≤ s.length)
    (hcons : ∀ c ∈ s.data, c ∈ consonantChars) : is_gibberish s = true := by
  have hfix : ∀ c ∈ s.data, Char.toLower c = c := by
    intro c hc
    exact (lower_letter_fixed c (consonant_letter c (hcons c hc))).1
  have hlow : py_lower s = s := by
    unfold py_lower
    rw [map_fixed_id hfix, String.mk_data]
  have hnows : ∀ c ∈ s.data, c.isWhitespace = false := by
    intro c hc
    exact (lower_letter_fixed c (consonant_letter c (hcons c hc))).2.2.1
  have hnotin : ∀ (ts : List String),
      (∀ t ∈ ts, ∃ c ∈ t.data, ¬ c ∈ consonantChars) →
      ts.any (fun t => py_in t s) = false := by
    intro ts hts
    rw [List.any_eq_false]
    intro t ht
    cases hpy : py_in t s with
    | false => simp
    | true =>
      obtain ⟨c, hct, hcn⟩ := hts t ht
      exact absurd (hcons c (py_in_subset hpy c hct)) hcn
  have hne : s.data ≠ [] := by
    intro he
    have : s.length = 0 := by
      show s.data.length = 0
      rw [he]; rfl
    omega
  have hsplit : py_split_ws s = [s] := by
    unfold py_split_ws
    rw [splitWsChars_one_word hne hnows]
    simp [String.mk_data]
  have hA := hnotin gibberishTechTerms (by decide)
  have hB := hnotin gibberishKeyTerms (by decide)
  have hC := hnotin gibberishValidTerms (by decide)
  have hlen2 : (s.length < 2) = False := eq_false (by omega)
  simp only [is_gibberish, hlow, hA, hB, hC, hsplit, hlen2, Bool.false_eq_true,
    if_false, List.length_cons, List.length_nil, Bool.not_false]
  norm_num

/-- Part 2 of the gibberish claim at the `is_gibberish` level: a two-word
lowercase-letter question containing a vowel, with no consonant run of
four, passes the vowel-ratio test and is not flagged. -/
theorem is_gibberish_two_word_false {w1 w2 : String}
    (hn1 : w1.data ≠ []) (hn2 : w2.data ≠ [])
    (hl : ∀ c ∈ w1.data ++ w2.data, c ∈ lowercaseLetters)
    (hv : ∃ c ∈ w1.data ++ w2.data, c ∈ vowelChars)
    (hrun : max_consecutive_consonants (w1 ++ " " ++ w2) < 4) :
    is_gibberish (w1 ++ " " ++ w2) = false := by
  set q := w1 ++ " " ++ w2 with hq
  have hdata : q.data = w1.data ++ ' ' :: w2.data := data_append_word w1 w2
  have hmem : ∀ c ∈ q.data, c ∈ lowercaseLetters ∨ c = ' ' := by
    intro c hc
    rw [hdata] at hc
    rcases List.mem_append.mp hc with hc | hc
    · exact Or.inl (hl c (List.mem_append.mpr (Or.inl hc)))
    · rcases List.mem_cons.mp hc with rfl | hc
      · exact Or.inr rfl
      · exact Or.inl (hl c (List.mem_append.mpr (Or.inr hc)))
  have hfixc : ∀ c ∈ q.data, Char.toLower c = c := by
    intro c hc
    rcases hmem c hc with h | rfl
    · exact (lower_letter_fixed c h).1
    · rfl
  have hlow : py_lower q = q := by
    unfold py_lower
    rw [map_fixed_id hfixc, String.mk_data]
  have dA : ∀ c ∈ lowercaseLetters,
      Char.isAlpha c = (decide (c ∈ consonantChars) || decide (c ∈ vowelChars)) := by decide
  have dB : ∀ c ∈ lowercaseLetters,
      (!(decide (c ∈ consonantChars) && decide (c ∈ vowelChars))) = true := by decide
  have dC : ∀ c ∈ lowercaseLetters,
      (!decide (c ∈ consonantChars)) = (decide (c ∈ vowelChars) || decide (c = ' ')) := by decide
  have dD : ∀ c ∈ lowercaseLetters,
      (!(decide (c ∈ vowelChars) && decide (c = ' '))) = true := by decide
  have dE : ∀ c ∈ lowercaseLetters, decide (c = ' ') = false := by decide
  have hlen1 : w1.data.length ≠ 0 := fun h => hn1 (List.eq_nil_of_length_eq_zero h)
  have hlen2' : w2.data.length ≠ 0 := fun h => hn2 (List.eq_nil_of_length_eq_zero h)
  have hnows1 : ∀ c ∈ w1.data, c.isWhitespace = false := fun c hc =>
    (lower_letter_fixed c (hl c (List.mem_append.mpr (Or.inl hc)))).2.2.1
  have hnows2 : ∀ c ∈ w2.data, c.isWhitespace = false := fun c hc =>
    (lower_letter_fixed c (hl c (List.mem_append.mpr (Or.inr hc)))).2.2.1
  have hsplit : py_split_ws q = [w1, w2] := by
    unfold py_split_ws
    rw [show q.data = w1.data ++ ' ' :: w2.data from hdata,
      splitWsChars_two_word hn1 hn2 hnows1 hnows2]
    simp [String.mk_data]
  -- arithmetic on the character counts
  have hT : alphaCount q = q.data.countP (fun c => decide (c ∈ consonantChars)) +
      q.data.countP (fun c => decide (c ∈ vowelChars)) := by
    unfold alphaCount
    refine countP_split _ _ _ _ ?_ ?_
    · intro c hc
      rcases hmem c hc with h | rfl
      · exact dA c h
      · rfl
    · intro c hc
      rcases hmem c hc with h | rfl
      · exact dB c h
      · rfl
  have hNC : q.data.countP (fun c => !decide (c ∈ consonantChars)) =
      q.data.countP (fun c => decide (c ∈ vowelChars)) +
        q.data.countP (fun c => decide (c = ' ')) := by
    refine countP_split _ _ _ _ ?_ ?_
    · intro c hc
      rcases hmem c hc with h | rfl
      · exact dC c h
      · rfl
    · intro c hc
      rcases hmem c hc with h | rfl
      · exact dD c h
      · rfl
  have hspace : q.data.countP (fun c => decide (c = ' ')) = 1 := by
    rw [hdata, List.countP_append, List.countP_cons]
    have z1 : w1.data.countP (fun c => decide (c = ' ')) = 0 := by
      rw [List.countP_eq_zero]
      intro c hc
      have hm := hl c (List.mem_append.mpr (Or.inl hc))
      simp [dE c hm]
    have z2 : w2.data.countP (fun c => decide (c = ' ')) = 0 := by
      rw [List.countP_eq_zero]
      intro c hc
      have hm := hl c (List.mem_append.mpr (Or.inr hc))
      simp [dE c hm]
    simp [z1, z2]
  have hrun3 : maxConsRunAux 0 0 q.data ≤ 3 := by
    have : max_consecutive_consonants q ≤ 3 := by omega
    exact this
  have hC : q.data.countP (fun c => decide (c ∈ consonantChars)) ≤
      3 * q.data.countP (fun c => !decide (c ∈ consonantChars)) + 3 :=
    consCount_le q.data 0 0 hrun3 (by omega)
  have hvc : vowelCount q = q.data.countP (fun c => decide (c ∈ vowelChars)) := rfl
  have hV1 : 0 < q.data.countP (fun c => decide (c ∈ vowelChars)) := by
    rw [List.countP_pos_iff]
    obtain ⟨c, hc, hcv⟩ := hv
    refine ⟨c, ?_, by simpa using hcv⟩
    rw [hdata]
    rcases List.mem_append.mp hc with h | h
    · exact List.mem_append.mpr (Or.inl h)
    · exact List.mem_append.mpr (Or.inr (List.mem_cons_of_mem _ h))
  have hTbound : alphaCount q ≤ 10 * vowelCount q := by
    rw [hvc]
    omega
  have hT0 : 0 < alphaCount q := by
    unfold alphaCount
    rw [List.countP_pos_iff]
    obtain ⟨c, hc, hcv⟩ := hv
    have hcq : c ∈ q.data := by
      rw [hdata]
      rcases List.mem_append.mp hc with h | h
      · exact List.mem_append.mpr (Or.inl h)
      · exact List.mem_append.mpr (Or.inr (List.mem_cons_of_mem _ h))
    refine ⟨c, hcq, ?_⟩
    rcases hmem c hcq with h | rfl
    · exact (lower_letter_fixed c h).2.2.2.1
    · revert hcv; decide
  have hratio : ((vowelCount q : ℚ) / (alphaCount q : ℚ) < 1/10) = False := by
    apply eq_false
    rw [not_lt, div_le_div_iff (by norm_num) (by exact_mod_cast hT0)]
    have : (alphaCount q : ℚ) ≤ 10 * (vowelCount q : ℚ) := by exact_mod_cast hTbound
    linarith
  have hlenq : (q.length < 2) = False := by
    apply eq_false
    show ¬ q.data.length < 2
    rw [hdata]
    simp only [List.length_append, List.length_cons]
    omega
  have hrunlt : (max_consecutive_consonants q ≥ 4) = False := eq_false (by omega)
  simp only [is_gibberish, hlow, hsplit, hlenq, hrunlt, hratio, if_false,
    List.length_cons, List.length_nil, decide_False, Bool.and_false]
  split
  · rfl
  split
  · rfl
  rw [if_neg (by omega : ¬ (1 + 1 < 2))]
  simp

/-! ## Structural lemmas about `categorize_question` -/

theorem rel_no_followup (lc : String) :
    ((relatedCategoriesOf lc).getD []).contains "followup" = false := by
  unfold relatedCategoriesOf
  repeat' split
  all_goals decide

/-- `is_context_relevant ctx "followup"` forces the literal last category
`"followup"`: no related-category list contains `"followup"` and the string
`"followup"` does not end in `"_followup"`. -/
theorem icr_followup {ctx : ConversationContext}
    (h : is_context_relevant ctx "followup" = true) :
    ctx.last_category = some "followup" := by
  unfold is_context_relevant at h
  cases hl : ctx.last_category with
  | none => rw [hl] at h; cases h
  | some lc =>
    rw [hl] at h
    dsimp only [] at h
    by_cases he : lc = ""
    · simp [he] at h
    · rw [if_neg he] at h
      by_cases hf : "followup" = lc
      · rw [hf]
      · rw [if_neg hf, rel_no_followup lc] at h
        rw [show (py_endswith "followup" "_followup") = false from rfl] at h
        simp at h

theorem personal_category_mem {q c : String} (h : personal_category q = some c) :
    c ∈ ["personal_relationship", "personal_financial", "personal_contact",
      "personal_age", "personal_religion"] := by
  unfold personal_category at h
  rw [Option.map_eq_some'] at h
  obtain ⟨p, hp, rfl⟩ := h
  have hmem := List.mem_of_find?_eq_some hp
  fin_cases hmem <;> decide

theorem counts_key_mem {q : String} {w : List String} {p : String × Nat}
    (hp : p ∈ baseCategoryCounts q w ++ otherCategoryCounts q) :
    p.1 ∈ allTailCats := by
  rcases List.mem_append.mp hp with hp | hp
  · obtain ⟨x, hx, rfl⟩ := List.mem_map.mp hp
    have hfst : x.1 ∈ category_keywords.map Prod.fst := List.mem_map_of_mem Prod.fst hx
    have : ∀ y ∈ category_keywords.map Prod.fst, y ∈ allTailCats := by decide
    exact this x.1 hfst
  · obtain ⟨x, hx, he⟩ := List.mem_filterMap.mp hp
    have hfst : x.1 ∈ other_categories.map Prod.fst := List.mem_map_of_mem Prod.fst hx
    have hy : ∀ y ∈ other_categories.map Prod.fst, y ∈ allTailCats := by decide
    dsimp only [] at he
    split at he
    · cases he
      exact hy x.1 hfst
    · cases he

theorem maxByCount_mem (l : List (String × Nat)) :
    ∀ best, maxByCount best l = best ∨ maxByCount best l ∈ l := by
  induction l with
  | nil => intro best; exact Or.inl rfl
  | cons p t ih =>
    intro best
    unfold maxByCount
    split
    · rcases ih p with h | h
      · exact Or.inr (by rw [h]; exact List.mem_cons_self p t)
      · exact Or.inr (List.mem_cons_of_mem p h)
    · rcases ih best with h | h
      · exact Or.inl h
      · exact Or.inr (List.mem_cons_of_mem p h)

theorem categorize_tail_mem (q : String) (w : List String) :
    categorize_tail q w ∈ allTailCats := by
  unfold categorize_tail
  split
  · decide
  · set counts := baseCategoryCounts q w ++ otherCategoryCounts q with hc
    have hfall :
        (if py_in "python" (py_lower q) = true then "teknologi"
          else if (py_split_ws q).length < 3 then "unclear_question" else "general")
          ∈ allTailCats := by
      split
      · decide
      · split
        · decide
        · decide
    cases hcc : counts with
    | nil => exact hfall
    | cons c t =>
      simp only []
      split
      · -- top.2 > 0, result is top.1
        have hm : maxByCount c t = c ∨ maxByCount c t ∈ t := maxByCount_mem t c
        have hmem : maxByCount c t ∈ counts := by
          rw [hcc]
          rcases hm with h | h
          · rw [h]; exact List.mem_cons_self c t
          · exact List.mem_cons_of_mem c h
        exact counts_key_mem (hc ▸ hmem)
      · exact hfall

/-- The value of the follow-up branch is `"general"` or ends in
`"_followup"`; in particular it never collides with the other literal
categories. -/
theorem followupBranchResult_cases (octx : Option ConversationContext) :
    followupBranchResult octx = "general" ∨
      ∃ lc, lc ≠ "" ∧ followupBranchResult octx = lc ++ "_followup" := by
  rcases octx with _ | ctx
  · exact Or.inl rfl
  show followupFromLast ctx.last_category = "general" ∨
    ∃ lc, lc ≠ "" ∧ followupFromLast ctx.last_category = lc ++ "_followup"
  rcases hl : ctx.last_category with _ | lc
  · exact Or.inl rfl
  · by_cases hne : lc = ""
    · left
      unfold followupFromLast
      exact if_pos hne
    · right
      refine ⟨lc, hne, ?_⟩
      unfold followupFromLast
      exact if_neg hne

theorem data_ne_nil {s : String} (h : s ≠ "") : s.data ≠ [] := by
  intro hd
  apply h
  have := congrArg String.mk hd
  rw [String.mk_data] at this
  exact this

theorem append_followup_ne {lc s : String} (hlen : s.data.length ≠ 9 + lc.data.length) :
    lc ++ "_followup" ≠ s := by
  intro he
  apply hlen
  rw [← he, String.data_append, List.length_append]
  have h9 : ("_followup".data.length) = 9 := rfl
  omega

/-- `"gibberish"` can only come out of the gibberish branch. -/
theorem categorize_eq_gibberish {q : String} {octx : Option ConversationContext}
    (h : is_gibberish (preprocess_question q) = false) :
    categorize_question q octx ≠ "gibberish" := by
  simp only [categorize_question, h, Bool.false_eq_true, if_false]
  split
  · decide
  split
  · decide
  split
  · rcases followupBranchResult_cases octx with hf | ⟨lc, hne, hf⟩
    · rw [hf]; decide
    · rw [hf]
      apply append_followup_ne
      have h0 : lc.data.length ≠ 0 :=
        fun hz => data_ne_nil hne (List.eq_nil_of_length_eq_zero hz)
      have h9 : ("gibberish".data.length) = 9 := rfl
      omega
  cases hpc : personal_category (preprocess_question q) with
  | some c =>
    have hm := personal_category_mem hpc
    show c ≠ "gibberish"
    fin_cases hm <;> decide
  | none =>
    show categorize_tail (preprocess_question q) (py_split_ws (preprocess_question q)) ≠
      "gibberish"
    have hm := categorize_tail_mem (preprocess_question q)
      (py_split_ws (preprocess_question q))
    have hall : ∀ x ∈ allTailCats, x ≠ "gibberish" := by decide
    exact hall _ hm

/-- Outside the follow-up branch, no produced category ends in
`"_followup"`; the branch itself requires `last_category = "followup"`. -/
theorem categorize_no_followup_suffix {q : String} {ctx : ConversationContext}
    (hlc : ctx.last_category ≠ some "followup") :
    py_endswith (categorize_question q (some ctx)) "_followup" = false := by
  simp only [categorize_question]
  split
  · decide
  split
  · decide
  split
  · decide
  split
  · rename_i hb
    unfold followupBranchTaken at hb
    rw [Bool.and_eq_true] at hb
    exact absurd (icr_followup hb.2) hlc
  cases hpc : personal_category (preprocess_question q) with
  | some c =>
    have hm := personal_category_mem hpc
    show py_endswith c "_followup" = false
    fin_cases hm <;> decide
  | none =>
    show py_endswith (categorize_tail (preprocess_question q)
      (py_split_ws (preprocess_question q))) "_followup" = false
    have hm := categorize_tail_mem (preprocess_question q)
      (py_split_ws (preprocess_question q))
    have hall : ∀ x ∈ allTailCats, py_endswith x "_followup" = false := by decide
    exact hall _ hm

/-! ## Claim theorems: question classification -/

/-- C8: every query of length at least 6 made only of (lowercase) consonant
letters is classified as gibberish by `categorize_question` (for any
conversation state), and a two-word lowercase-letter question that contains
a vowel and no run of 4 or more consecutive consonants is never classified
as gibberish. -/
theorem c8_gibberish_detection :
    (∀ (s : String) (octx : Option ConversationContext),
      6 ≤ s.length → (∀ c ∈ s.data, c ∈ consonantChars) →
      categorize_question s octx = "gibberish") ∧
    (∀ (w1 w2 : String) (octx : Option ConversationContext),
      w1.data ≠ [] → w2.data ≠ [] →
      (∀ c ∈ w1.data ++ w2.data, c ∈ lowercaseLetters) →
      (∃ c ∈ w1.data ++ w2.data, c ∈ vowelChars) →
      max_consecutive_consonants (w1 ++ " " ++ w2) < 4 →
      categorize_question (w1 ++ " " ++ w2) octx ≠ "gibberish") := by
  constructor
  · intro s octx hlen hcons
    have hfix : ∀ c ∈ s.data,
        Char.toLower c = c ∧ (isWordChar c || c.isWhitespace) = true := by
      intro c hc
      have h := lower_letter_fixed c (consonant_letter c (hcons c hc))
      exact ⟨h.1, h.2.1⟩
    have hnows : ∀ c ∈ s.data, c.isWhitespace = false := fun c hc =>
      (lower_letter_fixed c (consonant_letter c (hcons c hc))).2.2.1
    have hpre : preprocess_question s = s := by
      have h := preprocess_fixed hfix
        (by unfold collapseWs; exact collapseWsAux_of_nows hnows false)
        (stripChars_of_nows hnows)
      rwa [String.mk_data] at h
    have hgib := is_gibberish_consonants (s := s) (by omega) hcons
    simp only [categorize_question, hpre, hgib, if_true]
  · intro w1 w2 octx hn1 hn2 hl hv hrun
    set q := w1 ++ " " ++ w2 with hq
    have hdata : q.data = w1.data ++ ' ' :: w2.data := data_append_word w1 w2
    have hmem : ∀ c ∈ q.data, c ∈ lowercaseLetters ∨ c = ' ' := by
      intro c hc
      rw [hdata] at hc
      rcases List.mem_append.mp hc with hc | hc
      · exact Or.inl (hl c (List.mem_append.mpr (Or.inl hc)))
      · rcases List.mem_cons.mp hc with rfl | hc
        · exact Or.inr rfl
        · exact Or.inl (hl c (List.mem_append.mpr (Or.inr hc)))
    have hfix : ∀ c ∈ q.data,
        Char.toLower c = c ∧ (isWordChar c || c.isWhitespace) = true := by
      intro c hc
      rcases hmem c hc with h | rfl
      · exact ⟨(lower_letter_fixed c h).1, (lower_letter_fixed c h).2.1⟩
      · exact ⟨rfl, by decide⟩
    have hnows1 : ∀ c ∈ w1.data, c.isWhitespace = false := fun c hc =>
      (lower_letter_fixed c (hl c (List.mem_append.mpr (Or.inl hc)))).2.2.1
    have hnows2 : ∀ c ∈ w2.data, c.isWhitespace = false := fun c hc =>
      (lower_letter_fixed c (hl c (List.mem_append.mpr (Or.inr hc)))).2.2.1
    have hpre : preprocess_question q = q := by
      have h := preprocess_fixed hfix
        (by
          unfold collapseWs
          rw [hdata]
          exact collapseWsAux_two_word hnows1 hnows2)
        (by rw [hdata]; exact stripChars_two_word hn1 hn2 hnows1 hnows2)
      rwa [String.mk_data] at h
    have hgib := is_gibberish_two_word_false hn1 hn2 hl hv hrun
    exact categorize_eq_gibberish (by rw [hpre]; exact hgib)

/-- Witness for C8 at the concrete queries `"bcdfgh"` and `"apa kabar"`. -/
theorem c8_gibberish_detection_witness :
    categorize_question "bcdfgh" none = "gibberish" ∧
      categorize_question ("apa" ++ " " ++ "kabar") none ≠ "gibberish" :=
  ⟨c8_gibberish_detection.1 "bcdfgh" none (by decide) (by decide),
   c8_gibberish_detection.2 "apa" "kabar" none (by decide) (by decide) (by decide)
     (by decide) (by decide)⟩

/-- C2 (amended): `categorize_question` consults neither the 300-second
staleness window nor the transition count; a query is classified as
`<last_category>_followup` only through the follow-up branch, which
requires `is_context_relevant(ctx, "followup")` and hence the literal last
category `"followup"`.  Whenever the last category is anything else, no
returned category ends in `"_followup"` at all. -/
theorem c2_followup_gate (ctx : ConversationContext) (q : String)
    (hlc : ctx.last_category ≠ some "followup") :
    py_endswith (categorize_question q (some ctx)) "_followup" = false :=
  categorize_no_followup_suffix hlc

/-- Witness for C2 (amended) at a concrete context and query. -/
theorem c2_followup_gate_witness :
    py_endswith
      (categorize_question "terus gimana"
        (some ⟨some "keahlian", ["apa hobimu"], [("hobi", "keahlian", 1000)]⟩))
      "_followup" = false :=
  c2_followup_gate ⟨some "keahlian", ["apa hobimu"], [("hobi", "keahlian", 1000)]⟩
    "terus gimana" (by decide)

/-- Counterexample to C2 as stated: a follow-up-shaped query ("terus
gimana" matches the continuation patterns) in a session with non-empty
history whose single topic transition is 100 seconds old (within the
300-second window, and `should_use_context_in_prompt` agrees) is still not
classified as `keahlian_followup`: the staleness window plays no role in
`categorize_question`. -/
theorem c2_counterexample :
    (followupLits.any fun p => py_in p (preprocess_question "terus gimana")) = true ∧
    (⟨some "keahlian", ["apa hobimu"],
        [("hobi", "keahlian", 1000)]⟩ : ConversationContext).questions_history ≠ [] ∧
    (⟨some "keahlian", ["apa hobimu"],
        [("hobi", "keahlian", 1000)]⟩ : ConversationContext).topic_transitions.length ≤ 3 ∧
    ((1100 : ℚ) - 1000 ≤ 300) ∧
    should_use_context_in_prompt
      ⟨some "keahlian", ["apa hobimu"], [("hobi", "keahlian", 1000)]⟩ 1100
      "keahlian_followup" = true ∧
    categorize_question "terus gimana"
      (some ⟨some "keahlian", ["apa hobimu"], [("hobi", "keahlian", 1000)]⟩) =
      "unclear_question" ∧
    "unclear_question" ≠ "keahlian_followup" := by
  refine ⟨by decide, by decide, by decide, by decide, by decide, by decide, by decide⟩

/-- C1 (amended): for a query that passes the gibberish check, has more
than two words after preprocessing, matches no recruitment pattern, and
whose conversation state (if any) does not have the literal last category
`"followup"`, the presence of a personal-sensitive keyword makes
`categorize_question` return the matching `personal_<subcategory>` label —
never a technical category — even when a technical keyword is present. -/
theorem c1_personal_priority (q : String) (octx : Option ConversationContext)
    (cat : String)
    (hgib : is_gibberish (preprocess_question q) = false)
    (hwords : 2 < (py_split_ws (preprocess_question q)).length)
    (hrec : (recruitmentLits.any fun p => py_in p (preprocess_question q)) = false)
    (hctx : ∀ ctx, octx = some ctx → ctx.last_category ≠ some "followup")
    (htech : (tech_keywords.any fun kw => py_in kw (py_lower q)) = true)
    (hper : personal_category (preprocess_question q) = some cat) :
    categorize_question q octx = cat ∧
      (cat = "personal_relationship" ∨ cat = "personal_financial" ∨
        cat = "personal_contact" ∨ cat = "personal_age" ∨ cat = "personal_religion") ∧
      cat ≠ "teknologi" ∧ cat ≠ "keahlian" ∧ cat ≠ "data_science" ∧
      cat ≠ "tools" ∧ cat ≠ "portofolio_tech" := by
  have hm := personal_category_mem hper
  have hm2 := personal_category_mem hper
  refine ⟨?_, by simpa using hm, by fin_cases hm2 <;> decide⟩
  have hshort : decide ((py_split_ws (preprocess_question q)).length ≤ 2) = false := by
    simp
    omega
  have hfb : followupBranchTaken (preprocess_question q) octx = false := by
    cases octx with
    | none => rfl
    | some ctx =>
      cases hb : followupBranchTaken (preprocess_question q) (some ctx) with
      | false => rfl
      | true =>
        unfold followupBranchTaken at hb
        rw [Bool.and_eq_true] at hb
        exact absurd (icr_followup hb.2) (hctx ctx rfl)
  simp only [categorize_question, hgib, Bool.false_eq_true, if_false, hshort,
    Bool.false_and, hrec, hfb]
  rw [hper]

/-- Witness for C1 (amended) at the query "berapa gaji python kamu". -/
theorem c1_personal_priority_witness :
    categorize_question "berapa gaji python kamu" none = "personal_financial" ∧
      ("personal_financial" = "personal_relationship" ∨
        "personal_financial" = "personal_financial" ∨
        "personal_financial" = "personal_contact" ∨
        "personal_financial" = "personal_age" ∨
        "personal_financial" = "personal_religion") ∧
      "personal_financial" ≠ "teknologi" ∧ "personal_financial" ≠ "keahlian" ∧
      "personal_financial" ≠ "data_science" ∧ "personal_financial" ≠ "tools" ∧
      "personal_financial" ≠ "portofolio_tech" :=
  c1_personal_priority "berapa gaji python kamu" none "personal_financial"
    (by decide) (by decide) (by decide) (fun ctx h => Option.noConfusion h)
    (by decide) (by decide)

/-- Counterexample to C1 as stated: the two-word query "gaji python"
contains the personal-financial keyword "gaji" and the technical keyword
"python", yet `categorize_question` returns the technical category
`"teknologi"` (the short-technical-question branch precedes the personal
checks), not `personal_financial`. -/
theorem c1_counterexample :
    wb_search "gaji" (preprocess_question "gaji python") = true ∧
    py_in "python" (py_lower "gaji python") = true ∧
    personal_category (preprocess_question "gaji python") = some "personal_financial" ∧
    categorize_question "gaji python" none = "teknologi" ∧
    "teknologi" ≠ "personal_financial" := by
  refine ⟨by decide, by decide, by decide, by decide, by decide⟩

/-! ## Lemmas about the retrieval pipeline -/

theorem buildResults_mem {docs : List Document} :
    ∀ {l : List (Nat × ℚ)} {res : List RetrievedDoc},
      buildResults docs l = some res → ∀ r ∈ res,
      ∃ i sc d, (i, sc) ∈ l ∧ sc > 1/10 ∧ docs[i]? = some d ∧ r = mkRetrieved d sc := by
  intro l
  induction l with
  | nil =>
    intro res h r hr
    cases h
    cases hr
  | cons p t ih =>
    intro res h r hr
    obtain ⟨i, sc⟩ := p
    unfold buildResults at h
    split at h
    · rename_i hsc
      cases hd : docs[i]? with
      | none => rw [hd] at h; cases h
      | some d =>
        rw [hd] at h
        rw [Option.map_eq_some'] at h
        obtain ⟨res', hres', rfl⟩ := h
        rcases List.mem_cons.mp hr with rfl | hr
        · exact ⟨i, sc, d, List.mem_cons_self _ _, hsc, hd, rfl⟩
        · obtain ⟨i', sc', d', hmem, hsc', hd', he'⟩ := ih hres' r hr
          exact ⟨i', sc', d', List.mem_cons_of_mem _ hmem, hsc', hd', he'⟩
    · obtain ⟨i', sc', d', hmem, hsc', hd', he'⟩ := ih h r hr
      exact ⟨i', sc', d', List.mem_cons_of_mem _ hmem, hsc', hd', he'⟩

theorem buildResults_length {docs : List Document} :
    ∀ {l : List (Nat × ℚ)} {res : List RetrievedDoc},
      buildResults docs l = some res → res.length ≤ l.length := by
  intro l
  induction l with
  | nil => intro res h; cases h; simp
  | cons p t ih =>
    intro res h
    obtain ⟨i, sc⟩ := p
    unfold buildResults at h
    split at h
    · cases hd : docs[i]? with
      | none => rw [hd] at h; cases h
      | some d =>
        rw [hd] at h
        rw [Option.map_eq_some'] at h
        obtain ⟨res', hres', rfl⟩ := h
        have := ih hres'
        simp only [List.length_cons]
        omega
    · have := ih h
      simp only [List.length_cons]
      omega

/-- Similarity normalization is monotone. -/
theorem mkRetrieved_sim_mono {d d' : Document} {sc sc' : ℚ} (h : sc' ≤ sc) :
    (mkRetrieved d' sc').similarity_score ≤ (mkRetrieved d sc).similarity_score := by
  unfold mkRetrieved
  dsimp only []
  apply min_le_min _ le_rfl
  exact div_le_div_of_nonneg_right h (by norm_num)

theorem buildResults_pairwise {docs : List Document} :
    ∀ {l : List (Nat × ℚ)} {res : List RetrievedDoc},
      l.Pairwise (fun a b => b.2 ≤ a.2) → buildResults docs l = some res →
      res.Pairwise (fun a b => b.similarity_score ≤ a.similarity_score) := by
  intro l
  induction l with
  | nil => intro res _ h; cases h; exact List.Pairwise.nil
  | cons p t ih =>
    intro res hp h
    obtain ⟨i, sc⟩ := p
    rw [List.pairwise_cons] at hp
    unfold buildResults at h
    split at h
    · cases hd : docs[i]? with
      | none => rw [hd] at h; cases h
      | some d =>
        rw [hd] at h
        rw [Option.map_eq_some'] at h
        obtain ⟨res', hres', rfl⟩ := h
        rw [List.pairwise_cons]
        refine ⟨?_, ih hp.2 hres'⟩
        intro r hr
        obtain ⟨i', sc', d', hmem, _, _, rfl⟩ := buildResults_mem hres' r hr
        exact mkRetrieved_sim_mono (hp.1 (i', sc') hmem)
    · exact ih hp.2 h

/-- Membership in an insertion step. -/
theorem mem_insertByKeep {α : Type} {keep : α → α → Bool} {x z : α} :
    ∀ {l : List α}, z ∈ insertByKeep keep x l → z = x ∨ z ∈ l := by
  intro l
  induction l with
  | nil =>
    intro h
    unfold insertByKeep at h
    exact Or.inl (by simpa using h)
  | cons y t ih =>
    intro h
    unfold insertByKeep at h
    split at h
    · rcases List.mem_cons.mp h with rfl | h
      · exact Or.inr (List.mem_cons_self _ _)
      · rcases ih h with h | h
        · exact Or.inl h
        · exact Or.inr (List.mem_cons_of_mem _ h)
    · rcases List.mem_cons.mp h with rfl | h
      · exact Or.inl rfl
      · exact Or.inr h

theorem insertByKeep_pairwise {α : Type} {keep : α → α → Bool} {R : α → α → Prop}
    (htot : ∀ y x, if keep y x = true then R y x else R x y)
    (htrans : ∀ a b c, R a b → R b c → R a c) (x : α) :
    ∀ {l : List α}, l.Pairwise R → (insertByKeep keep x l).Pairwise R := by
  intro l
  induction l with
  | nil => intro; simp [insertByKeep]
  | cons y t ih =>
    intro hp
    rw [List.pairwise_cons] at hp
    unfold insertByKeep
    split
    · rename_i hk
      rw [List.pairwise_cons]
      constructor
      · intro z hz
        rcases mem_insertByKeep hz with rfl | hz
        · have := htot y z
          rwa [if_pos hk] at this
        · exact hp.1 z hz
      · exact ih hp.2
    · rename_i hk
      rw [List.pairwise_cons]
      have hxy : R x y := by
        have := htot y x
        rwa [if_neg hk] at this
      constructor
      · intro z hz
        rcases List.mem_cons.mp hz with rfl | hz
        · exact hxy
        · exact htrans x y z hxy (hp.1 z hz)
      · exact List.pairwise_cons.mpr hp

theorem stableSortByKeep_pairwise {α : Type} {keep : α → α → Bool} {R : α → α → Prop}
    (htot : ∀ y x, if keep y x = true then R y x else R x y)
    (htrans : ∀ a b c, R a b → R b c → R a c) (l : List α) :
    (stableSortByKeep keep l).Pairwise R := by
  suffices h : ∀ acc : List α, acc.Pairwise R →
      (l.foldl (fun acc x => insertByKeep keep x acc) acc).Pairwise R by
    exact h [] List.Pairwise.nil
  induction l with
  | nil => intro acc hacc; exact hacc
  | cons x t ih =>
    intro acc hacc
    exact ih (insertByKeep keep x acc) (insertByKeep_pairwise htot htrans x hacc)

theorem sortScoresDesc_pairwise (l : List (Nat × ℚ)) :
    (sortScoresDesc l).Pairwise (fun a b => b.2 ≤ a.2) := by
  apply stableSortByKeep_pairwise
  · intro y x
    split
    · rename_i h
      exact of_decide_eq_true h
    · rename_i h
      have := of_decide_eq_false (Bool.of_not_eq_true h)
      exact le_of_not_le this
  · intro a b c hab hbc
    exact le_trans hbc hab

/-- C7 (amended): the results of `retrieve_relevant_docs` are ordered by
non-increasing similarity score (descending raw score; equal raw scores
keep the insertion order of the score dictionary, which is first-touch
order during scoring, not necessarily corpus order). -/
theorem c7_results_sorted (s : RagSystem) (query : String) (top_k : Nat)
    (category_filter : Option String) :
    (retrieve_relevant_docs s query top_k category_filter).Pairwise
      (fun a b => b.similarity_score ≤ a.similarity_score) := by
  unfold retrieve_relevant_docs
  cases hc : retrieveCore s query top_k category_filter with
  | none => exact List.Pairwise.nil
  | some res =>
    show res.Pairwise _
    simp only [retrieveCore] at hc
    split at hc
    · cases hc; exact List.Pairwise.nil
    · split at hc
      · cases hc
      · split at hc
        · cases hc
        · rename_i sc1 _ sc _
          have hsorted : ((sortScoresDesc sc).take top_k).Pairwise
              (fun a b => (b.2 : ℚ) ≤ a.2) :=
            List.Pairwise.sublist (List.take_sublist top_k (sortScoresDesc sc))
              (sortScoresDesc_pairwise sc)
          exact buildResults_pairwise hsorted hc

/-- Counterexample to C7 as stated: two documents tie at raw score 3.0 for
the query "aaa bbb", but the result order is document 1 before document 0
(dictionary insertion order: the first query word touches document 1
first), violating the claimed corpus-order tie-break. -/
theorem c7_counterexample :
    (retrieve_relevant_docs
        (load_knowledge_base emptyRag
          [⟨"c", "ttx", "bbb", []⟩, ⟨"c", "tty", "aaa", []⟩]).2
        "aaa bbb" 3 none).map (fun r => (r.title, r.similarity_score)) =
      [("tty", 3/10), ("ttx", 3/10)] ∧ ("tty", (3 : ℚ)/10) ≠ ("ttx", (3 : ℚ)/10) := by
  refine ⟨by decide, by decide⟩

/-- Every returned result arises from a raw score above 0.1. -/
theorem retrieve_mem {s : RagSystem} {query : String} {top_k : Nat}
    {category_filter : Option String} {r : RetrievedDoc}
    (hr : r ∈ retrieve_relevant_docs s query top_k category_filter) :
    ∃ sc d, sc > 1/10 ∧ r = mkRetrieved d sc := by
  unfold retrieve_relevant_docs at hr
  cases hc : retrieveCore s query top_k category_filter with
  | none => rw [hc] at hr; cases hr
  | some res =>
    rw [hc] at hr
    simp only [retrieveCore] at hc
    split at hc
    · cases hc; cases hr
    · split at hc
      · cases hc
      · split at hc
        · cases hc
        · obtain ⟨i, sc, d, _, hsc, _, he⟩ := buildResults_mem hc r hr
          exact ⟨sc, d, hsc, he⟩

/-- C9: every similarity score returned by `retrieve_relevant_docs` lies in
the closed interval `[0, 1]` (the raw score passes the `> 0.1` filter and
is then normalized with `min(score/10, 1.0)`). -/
theorem c9_similarity_in_unit_interval (s : RagSystem) (query : String) (top_k : Nat)
    (category_filter : Option String) (r : RetrievedDoc)
    (hr : r ∈ retrieve_relevant_docs s query top_k category_filter) :
    0 ≤ r.similarity_score ∧ r.similarity_score ≤ 1 := by
  obtain ⟨sc, d, hsc, rfl⟩ := retrieve_mem hr
  unfold mkRetrieved
  dsimp only []
  refine ⟨le_min (by nlinarith [hsc]) (by norm_num), min_le_right _ _⟩

/-- Witness for C9 at a one-document corpus. -/
theorem c9_similarity_in_unit_interval_witness :
    0 ≤ (⟨"tit: alpha beta", "tit", "c", [], 3/10⟩ : RetrievedDoc).similarity_score ∧
      (⟨"tit: alpha beta", "tit", "c", [], 3/10⟩ : RetrievedDoc).similarity_score ≤ 1 :=
  c9_similarity_in_unit_interval
    (load_knowledge_base emptyRag [⟨"c", "tit", "alpha beta", []⟩]).2 "alpha" 3 none
    ⟨"tit: alpha beta", "tit", "c", [], 3/10⟩ (by decide)

/-- C5 (amended): the relevance floor is applied to the raw accumulated
score (`score > 0.1`) before normalization, so every returned
`similarity_score` exceeds 0.01 (and is at most 1) but may lie below 0.1. -/
theorem c5_raw_score_floor (s : RagSystem) (query : String) (top_k : Nat)
    (category_filter : Option String) (r : RetrievedDoc)
    (hr : r ∈ retrieve_relevant_docs s query top_k category_filter) :
    1/100 < r.similarity_score ∧ r.similarity_score ≤ 1 := by
  obtain ⟨sc, d, hsc, rfl⟩ := retrieve_mem hr
  unfold mkRetrieved
  dsimp only []
  refine ⟨lt_min (by nlinarith [hsc]) (by norm_num), min_le_right _ _⟩

/-- Witness for C5 (amended): a fuzzy-only match scores 0.5 raw, hence
similarity 0.05. -/
theorem c5_raw_score_floor_witness :
    1/100 < (⟨"t: abcdef", "t", "c", [], 1/20⟩ : RetrievedDoc).similarity_score ∧
      (⟨"t: abcdef", "t", "c", [], 1/20⟩ : RetrievedDoc).similarity_score ≤ 1 :=
  c5_raw_score_floor
    (load_knowledge_base emptyRag [⟨"c", "t", "abcdef", []⟩]).2 "abcde" 3 none
    ⟨"t: abcdef", "t", "c", [], 1/20⟩ (by decide)

/-- Counterexample to C5 as stated: the query "abcde" matches the document
word "abcdef" only through fuzzy matching (ratio 10/11 ≥ 0.8), giving raw
score 0.5 > 0.1, which normalizes to similarity 0.05 < 0.1: the result
survives the floor with a normalized score below 0.1. -/
theorem c5_counterexample :
    (retrieve_relevant_docs (load_knowledge_base emptyRag [⟨"c", "t", "abcdef", []⟩]).2
        "abcde" 3 none).map (·.similarity_score) = [1/20] ∧
      ¬ ((1 : ℚ)/10 ≤ 1/20) := by
  refine ⟨by decide, by decide⟩

/-! ## Load accumulation (C3) -/

theorem addDocIndexes_vectors (st : RagSystem) (i : Nat) (d : Document) :
    (addDocIndexes st i d).content_vectors = st.content_vectors := by
  unfold addDocIndexes
  dsimp only []
  split <;> rfl

theorem addDocIndexes_documents (st : RagSystem) (i : Nat) (d : Document) :
    (addDocIndexes st i d).documents = st.documents := by
  unfold addDocIndexes
  dsimp only []
  split <;> rfl

theorem foldl_addDocIndexes_vectors (l : List (Nat × Document)) :
    ∀ st : RagSystem,
      (l.foldl (fun st p => addDocIndexes st p.1 p.2) st).content_vectors =
        st.content_vectors := by
  induction l with
  | nil => intro st; rfl
  | cons p t ih =>
    intro st
    rw [List.foldl_cons, ih, addDocIndexes_vectors]

theorem foldl_addDocIndexes_documents (l : List (Nat × Document)) :
    ∀ st : RagSystem,
      (l.foldl (fun st p => addDocIndexes st p.1 p.2) st).documents = st.documents := by
  induction l with
  | nil => intro st; rfl
  | cons p t ih =>
    intro st
    rw [List.foldl_cons, ih, addDocIndexes_documents]

theorem load_vectors_length (s : RagSystem) (data : List Document) :
    ((load_knowledge_base s data).2).content_vectors.length =
      s.content_vectors.length + data.length := by
  unfold load_knowledge_base build_advanced_indexes
  dsimp only []
  rw [List.length_append, foldl_addDocIndexes_vectors]
  simp

theorem load_documents_eq (s : RagSystem) (data : List Document) :
    ((load_knowledge_base s data).2).documents = data := by
  unfold load_knowledge_base build_advanced_indexes
  dsimp only []
  rw [foldl_addDocIndexes_documents]

/-- C3 (amended): `load_knowledge_base` replaces `documents` but only
appends to `content_vectors` (nothing is cleared), so a second identical
load leaves the same documents yet doubles the vector list; retrieval
after a double load can therefore differ from retrieval after a single
load (see the counterexample, where it turns a one-element result into
`[]`), i.e. loading is not idempotent. -/
theorem c3_double_load_accumulates (data : List Document) :
    ((load_knowledge_base emptyRag data).2).content_vectors.length = data.length ∧
    ((load_knowledge_base (load_knowledge_base emptyRag data).2 data).2).content_vectors.length =
      2 * data.length ∧
    ((load_knowledge_base (load_knowledge_base emptyRag data).2 data).2).documents =
      ((load_knowledge_base emptyRag data).2).documents := by
  refine ⟨?_, ?_, ?_⟩
  · rw [load_vectors_length]
    simp [emptyRag]
  · rw [load_vectors_length, load_vectors_length]
    simp [emptyRag]
    omega
  · rw [load_documents_eq, load_documents_eq]

set_option maxRecDepth 20000 in
/-- Counterexample to C3 as stated: after a single load of the one-document
corpus the query "alpha" retrieves the document with similarity 0.3; after
loading the same list a second time the duplicated content vector scores a
phantom document index, the result loop raises `IndexError` (caught by the
`except`, returning `[]`), so the two states give different results. -/
theorem c3_counterexample :
    retrieve_relevant_docs
        (load_knowledge_base emptyRag [⟨"c", "tit", "alpha beta", []⟩]).2
        "alpha" 3 none = [⟨"tit: alpha beta", "tit", "c", [], 3/10⟩] ∧
    retrieve_relevant_docs
        (load_knowledge_base (load_knowledge_base emptyRag
            [⟨"c", "tit", "alpha beta", []⟩]).2 [⟨"c", "tit", "alpha beta", []⟩]).2
        "alpha" 3 none = [] ∧
    ([⟨"tit: alpha beta", "tit", "c", [], 3/10⟩] : List RetrievedDoc) ≠ [] := by
  refine ⟨by decide, by decide, by decide⟩

/-! ## Context length accounting (C4) -/

theorem joinNL_length : ∀ l : List String, (joinNL l).length ≤ sumLen l + (l.length - 1)
  | [] => by simp [joinNL, sumLen]
  | [x] => by simp [joinNL, sumLen]
  | x :: y :: t => by
    show (x ++ "\n" ++ joinNL (y :: t)).length ≤ _
    rw [String.length_append, String.length_append]
    have h := joinNL_length (y :: t)
    simp only [sumLen, List.map_cons, List.sum_cons, List.length_cons] at h ⊢
    have h1 : ("\n".length) = 1 := rfl
    omega

theorem greedyParts_sum (cap : Nat) : ∀ (ps : List String) (cur : Nat),
    sumLen (greedyParts cap ps cur) + cur ≤ max cap cur := by
  intro ps
  induction ps with
  | nil => intro cur; simp [greedyParts, sumLen]
  | cons p t ih =>
    intro cur
    unfold greedyParts
    split
    · rename_i hfit
      have h := ih (cur + p.length)
      simp only [sumLen, List.map_cons, List.sum_cons] at h ⊢
      have hmax : max cap (cur + p.length) = cap := by omega
      rw [hmax] at h
      omega
    · simp only [greedyParts, sumLen, List.map_nil, List.sum_nil]
      omega

theorem greedyParts_length (cap : Nat) : ∀ (ps : List String) (cur : Nat),
    (greedyParts cap ps cur).length ≤ ps.length := by
  intro ps
  induction ps with
  | nil => intro cur; simp [greedyParts]
  | cons p t ih =>
    intro cur
    unfold greedyParts
    split
    · simpa using ih (cur + p.length)
    · simp

theorem retrieve_length_le (s : RagSystem) (query : String) (top_k : Nat)
    (category_filter : Option String) :
    (retrieve_relevant_docs s query top_k category_filter).length ≤ top_k := by
  unfold retrieve_relevant_docs
  cases hc : retrieveCore s query top_k category_filter with
  | none => simp
  | some res =>
    show res.length ≤ top_k
    simp only [retrieveCore] at hc
    split at hc
    · cases hc; simp
    · split at hc
      · cases hc
      · split at hc
        · cases hc
        · rename_i sc _
          have h1 := buildResults_length hc
          have h2 : (List.take top_k (sortScoresDesc sc)).length ≤ top_k :=
            List.length_take_le top_k (sortScoresDesc sc)
          omega

/-- C4 (amended): the 800-character cap of `build_rag_context` bounds the
sum of the kept entries, but the joining newlines are not counted, so the
returned string is only bounded by `800 + (top_k - 1)` characters — that
is, by `799 + top_k` (and by 800 whenever at most one entry is kept). -/
theorem c4_context_length_bound (s : RagSystem) (query : String) (top_k : Nat)
    (category_filter : Option String) :
    (build_rag_context s query top_k category_filter).length ≤ 799 + top_k := by
  unfold build_rag_context
  dsimp only []
  split
  · simp
  have hk : 1 ≤ top_k := by
    rename_i hne
    by_contra hlt
    have h1 := retrieve_length_le s query top_k category_filter
    have hz : (retrieve_relevant_docs s query top_k category_filter).length = 0 := by omega
    apply hne
    simp only [List.isEmpty_iff]
    exact List.length_eq_zero.mp hz
  split
  · simp
  split
  · -- the greedy branch
    have hsum := greedyParts_sum 800 (contextParts s query top_k category_filter) 0
    have hlen := greedyParts_length 800 (contextParts s query top_k category_filter) 0
    have hjoin := joinNL_length (greedyParts 800 (contextParts s query top_k category_filter) 0)
    have hparts : (contextParts s query top_k category_filter).length ≤ top_k := by
      unfold contextParts
      have := List.length_filterMap_le
        (fun r => if r.similarity_score > 1/5 then
          some ("[" ++ r.category ++ "] " ++ trimContent r) else none)
        (retrieve_relevant_docs s query top_k category_filter)
      have h2 := retrieve_length_le s query top_k category_filter
      omega
    simp only [Nat.max_self, Nat.add_zero] at hsum
    omega
  · -- the short branch: the joined string is within the cap itself
    rename_i hfull
    have : (joinNL (contextParts s query top_k category_filter)).length ≤ 800 := by omega
    omega

set_option maxRecDepth 100000 in
/-- Counterexample to C4 as stated: nine identical documents each produce a
100-character entry; the greedy loop keeps eight of them (800 characters of
entries), and the seven joining newlines push the returned context to 807
characters, exceeding the 800-character cap. -/
theorem c4_counterexample :
    (build_rag_context
        (load_knowledge_base emptyRag
          (List.replicate 9 ⟨"c", "docaa", String.mk (List.replicate 89 'a'), ["query"]⟩)).2
        "query" 9 none).length = 807 ∧ 800 < 807 := by
  refine ⟨by decide, by decide⟩

/-- C6 (amended): `build_rag_context` keeps entries with similarity above
0.2 and trims each to 300 characters when its similarity exceeds 0.7 and
to 150 characters otherwise (there is no 100-character tier), appending an
ellipsis exactly when the content is truncated. -/
theorem c6_trim_two_tiers (s : RagSystem) (query : String) (top_k : Nat)
    (category_filter : Option String) (part : String)
    (hp : part ∈ contextParts s query top_k category_filter) :
    ∃ r ∈ retrieve_relevant_docs s query top_k category_filter,
      r.similarity_score > 1/5 ∧
      part = "[" ++ r.category ++ "] " ++ trimContent r ∧
      trimContent r =
        (if r.similarity_score > 7/10 then
          if r.content.length > 300 then py_take r.content 300 ++ "..." else r.content
        else
          if r.content.length > 150 then py_take r.content 150 ++ "..." else r.content) := by
  unfold contextParts at hp
  obtain ⟨r, hr, he⟩ := List.mem_filterMap.mp hp
  split at he
  · rename_i hgt
    exact ⟨r, hr, hgt, (Option.some.inj he).symm, rfl⟩
  · cases he

set_option maxRecDepth 20000 in
/-- Witness for C6 (amended) at a corpus whose single retrieved entry has
similarity 0.3 and content longer than 150 characters. -/
theorem c6_trim_two_tiers_witness :
    ∃ r ∈ retrieve_relevant_docs
        (load_knowledge_base emptyRag
          [⟨"c", "ttt", joinSpace (List.replicate 40 "alpha"), []⟩]).2 "alpha" 3 none,
      r.similarity_score > 1/5 ∧
      ("[c] " ++ py_take ("ttt: " ++ joinSpace (List.replicate 40 "alpha")) 150 ++ "...") =
        "[" ++ r.category ++ "] " ++ trimContent r ∧
      trimContent r =
        (if r.similarity_score > 7/10 then
          if r.content.length > 300 then py_take r.content 300 ++ "..." else r.content
        else
          if r.content.length > 150 then py_take r.content 150 ++ "..." else r.content) :=
  c6_trim_two_tiers
    (load_knowledge_base emptyRag
      [⟨"c", "ttt", joinSpace (List.replicate 40 "alpha"), []⟩]).2 "alpha" 3 none
    ("[c] " ++ py_take ("ttt: " ++ joinSpace (List.replicate 40 "alpha")) 150 ++ "...")
    (by decide)

set_option maxRecDepth 20000 in
/-- Counterexample to C6 as stated: a result with similarity 0.3 (between
0.2 and 0.4) and 244-character content is trimmed to 150 characters plus
the ellipsis (entry length 4 + 153 = 157), not to the claimed 100
characters (which would give 4 + 103 = 107). -/
theorem c6_counterexample :
    (retrieve_relevant_docs
        (load_knowledge_base emptyRag
          [⟨"c", "ttt", joinSpace (List.replicate 40 "alpha"), []⟩]).2
        "alpha" 3 none).map (·.similarity_score) = [3/10] ∧
    ((3 : ℚ)/10 ≤ 2/5) ∧
    (build_rag_context
        (load_knowledge_base emptyRag
          [⟨"c", "ttt", joinSpace (List.replicate 40 "alpha"), []⟩]).2
        "alpha" 3 none).length = 157 ∧
    (157 : Nat) ≠ 107 := by
  refine ⟨by decide, by decide, by decide, by decide⟩

/-! ## Error containment (C10) -/

/-- C10: the public query operations never propagate an exception: when the
body of `retrieve_relevant_docs` fails internally (`retrieveCore = none`,
e.g. an out-of-range document index) the `except` handler returns `[]`;
`suggest_related_topics` always returns a plain list of at most three
topics; and `load_knowledge_base` on well-typed document lists returns
`True` instead of raising. -/
theorem c10_error_containment (s : RagSystem) (query : String) (top_k : Nat)
    (category_filter : Option String) :
    (retrieveCore s query top_k category_filter = none →
      retrieve_relevant_docs s query top_k category_filter = []) ∧
    (suggest_related_topics s query top_k).length ≤ 3 ∧
    (∀ data : List Document, (load_knowledge_base s data).1 = true) := by
  refine ⟨?_, ?_, fun data => rfl⟩
  · intro h
    unfold retrieve_relevant_docs
    rw [h]
    rfl
  · unfold suggest_related_topics
    dsimp only []
    split <;> exact List.length_take_le 3 _

set_option maxRecDepth 20000 in
/-- Witness for C10: the doubly-loaded corpus makes `retrieveCore` fail
with an out-of-range index, and `retrieve_relevant_docs` returns `[]`. -/
theorem c10_error_containment_witness :
    retrieve_relevant_docs
      (load_knowledge_base (load_knowledge_base emptyRag
          [⟨"c", "tit", "alpha beta", []⟩]).2 [⟨"c", "tit", "alpha beta", []⟩]).2
      "alpha" 3 none = [] :=
  (c10_error_containment
      (load_knowledge_base (load_knowledge_base emptyRag
          [⟨"c", "tit", "alpha beta", []⟩]).2 [⟨"c", "tit", "alpha beta", []⟩]).2
      "alpha" 3 none).1 (by decide)
